import Mathlib

/-!
Verification of the shared Feetech bus layer
(`src/lerobot/robots/xlerobot/shared_bus_mode/shared_bus.py`).

Python dictionaries are embedded as association lists (`List (κ × α)`),
which preserves insertion order; `alookup` is `d[k]` / `k in d`, and
`dinsert` is `d[k] = v` (update in place when the key exists, append
otherwise), exactly the mutation semantics of a Python `dict`.
-/

set_option autoImplicit false

deriving instance DecidableEq for Except

namespace SharedBus

/-- Dictionary lookup: first entry whose key matches, as in a Python dict. -/
def alookup {κ α : Type} [DecidableEq κ] : List (κ × α) → κ → Option α
  | [], _ => none
  | p :: rest, k => if p.1 = k then some p.2 else alookup rest k

/-- Dictionary assignment `d[k] = v`: update the entry in place when the key
is present, append a fresh entry otherwise. -/
def dinsert {κ α : Type} [DecidableEq κ] (d : List (κ × α)) (k : κ) (v : α) :
    List (κ × α) :=
  if (alookup d k).isSome then
    d.map (fun p => if p.1 = k then (k, v) else p)
  else d ++ [(k, v)]

/-- The keys of a dictionary, in insertion order. -/
def dkeys {κ α : Type} (d : List (κ × α)) : List κ := d.map Prod.fst

/-- Modelled from the spec: a `Motor` (class `lerobot.motors.Motor`, outside
the shared-bus sources) is a numeric address, a model tag and a
normalization mode, immutable once constructed (spec §3); `shared_bus.py`
constructs it as `Motor(id=..., model=..., norm_mode=...)`. -/
structure Motor where
  id : Int
  model : String
  norm_mode : String
deriving DecidableEq, Repr

/-- Modelled from the spec: a per-motor calibration payload
(`lerobot.motors.MotorCalibration`, outside the shared-bus sources), opaque
to the core beyond key-by-motor-name storage (spec §3). -/
structure MotorCalibration where
  payload : Int
deriving DecidableEq, Repr

/-- The fields of `SharedBusAssemblyConfig` (config_xlerobot.py) read by the
shared-bus layer. -/
structure SharedBusAssemblyConfig where
  type : String
  port : String
  protocol_version : Int
  handshake_on_connect : Bool
deriving DecidableEq, Repr

/-- A motor argument that is either a motor name or a raw numeric id
(Python `str | int`). -/
inductive MotorRef where
  | name (s : String)
  | id (i : Int)
deriving DecidableEq, Repr

/-- The `motors` argument of subset operations (Python
`str | list[str] | None`). -/
inductive MotorsArg where
  | noArg
  | one (motor : String)
  | many (motors : List String)
deriving DecidableEq, Repr

/-- A command observed by the physical Bus Handle.  `connect` / `disconnect`
are the hardware connection transitions; the rest record which bus-global
keys each forwarded operation addressed. -/
inductive PhysEvent where
  | connect (handshake : Bool)
  | disconnect (disable_torque : Bool)
  | disableTorque (motors : List String)
  | enableTorque (motors : List String)
  | syncWrite (data_name : String) (keys : List String)
  | syncRead (data_name : String) (keys : List String)
  | write (data_name : String) (motor : Option MotorRef) (value : Int)
  | setupMotor (motor : Option MotorRef) (initial_baudrate initial_id : Option Int)
  | writeCalibration (keys : List String)
  | setHomings (keys : List String)
  | recordRanges (keys : List String)
deriving DecidableEq, Repr

/-- The errors raised by the shared-bus layer: `nameCollision` is the
`ValueError` of `register_component` (the spec's NameCollisionError),
`uninitializedBus` the `RuntimeError("Shared bus not initialized.")` of the
View operations (the spec's UninitializedBusError), and `keyError` a Python
`KeyError` from an unknown dictionary key. -/
inductive BusError where
  | nameCollision (bus_name : String)
  | uninitializedBus
  | keyError (key : String)
deriving DecidableEq, Repr

/-- Modelled from the spec: the external Bus Handle (`FeetechMotorsBus` from
`lerobot.motors.feetech`, outside the shared-bus sources): a synchronous
request/response driver holding the motor table, a calibration store and a
connected flag (spec §2, §3).  Its register state is a store keyed by
(data_name, bus-global motor name) that batch writes fill and batch reads
echo back (spec §8, round trip against an echoing double). -/
structure FeetechMotorsBus where
  port : String
  motors : List (String × Motor)
  calibration : List (String × MotorCalibration)
  protocol_version : Int
  is_connected : Bool
  store : List ((String × String) × Int)
deriving DecidableEq, Repr

/-- `FeetechBusView` (shared_bus.py): the dataclass fields `local_motors`
and `local_to_bus`, plus the `_connected` flag set by `__post_init__`.
The Python object also holds a reference to its manager; in this embedding
every View operation takes the manager state as an explicit argument. -/
structure FeetechBusView where
  local_motors : List (String × Motor)
  local_to_bus : List (String × String)
  _connected : Bool
deriving DecidableEq, Repr

/-- `FeetechBusManager` (shared_bus.py): name, config, the Global Namespace
`_motor_defs`, the Global Calibration Table `_calibration`, the registered
views, the lazily constructed Bus Handle and the connection reference
count. -/
structure FeetechBusManager where
  name : String
  config : SharedBusAssemblyConfig
  _motor_defs : List (String × Motor)
  _calibration : List (String × MotorCalibration)
  views : List (String × FeetechBusView)
  bus : Option FeetechMotorsBus
  _refcount : Nat
deriving DecidableEq, Repr

/-- The renumbered motor built by `register_component`:
`Motor(id=motor.id + motor_id_offset, model=motor.model,
norm_mode=motor.norm_mode)`. -/
def offsetMotor (motor_id_offset : Int) (m : Motor) : Motor :=
  ⟨m.id + motor_id_offset, m.model, m.norm_mode⟩

/-- One calibration step of the `register_component` loop:
`if initial_calibration and motor_name in initial_calibration:
self._calibration[bus_name] = initial_calibration[motor_name]`
(an absent or empty `initial_calibration` contributes nothing). -/
def calStep (initial_calibration : Option (List (String × MotorCalibration)))
    (pfx : String) (cal : List (String × MotorCalibration)) (motor_name : String) :
    List (String × MotorCalibration) :=
  match initial_calibration with
  | some ic =>
    match alookup ic motor_name with
    | some c => dinsert cal (pfx ++ motor_name) c
    | none => cal
  | none => cal

/-- The mutable state threaded through the `register_component` loop: the
manager's `_motor_defs` and `_calibration` plus the `local_copy` and
`mapping` dictionaries being built for the new view. -/
structure RegState where
  motor_defs : List (String × Motor)
  calibration : List (String × MotorCalibration)
  local_copy : List (String × Motor)
  mapping : List (String × String)
deriving DecidableEq, Repr

/-- The `for motor_name, motor in local_motors.items()` loop of
`register_component`: computes `bus_name = prefix + motor_name`, raises on a
Global Namespace collision (leaving the mutations made so far in place, as
the Python `raise` does), otherwise inserts the renumbered motor and
recurses. -/
def registerLoop (pfx : String) (motor_id_offset : Int)
    (initial_calibration : Option (List (String × MotorCalibration))) :
    List (String × Motor) → RegState → RegState × Option BusError
  | [], st => (st, none)
  | (motor_name, motor) :: rest, st =>
    let bus_name := pfx ++ motor_name
    if (alookup st.motor_defs bus_name).isSome then
      (st, some (BusError.nameCollision bus_name))
    else
      let updated_motor := offsetMotor motor_id_offset motor
      registerLoop pfx motor_id_offset initial_calibration rest
        { motor_defs := dinsert st.motor_defs bus_name updated_motor
          calibration := calStep initial_calibration pfx st.calibration motor_name
          local_copy := dinsert st.local_copy motor_name
            ⟨updated_motor.id, updated_motor.model, updated_motor.norm_mode⟩
          mapping := dinsert st.mapping motor_name bus_name }

/-- `FeetechBusManager.register_component`.  Returns the manager state after
the call together with either the new view or the raised error; on error the
mutations already applied to `_motor_defs` and `_calibration` persist,
exactly as in the Python code where the dictionaries are mutated in place
before the `raise`. -/
def FeetechBusManager.register_component (mgr : FeetechBusManager)
    (component_name : String) (local_motors : List (String × Motor))
    (pfx : String) (motor_id_offset : Int)
    (initial_calibration : Option (List (String × MotorCalibration)) := none) :
    FeetechBusManager × Except BusError FeetechBusView :=
  match registerLoop pfx motor_id_offset initial_calibration local_motors
      ⟨mgr._motor_defs, mgr._calibration, [], []⟩ with
  | (st, some e) =>
    ({ mgr with _motor_defs := st.motor_defs, _calibration := st.calibration },
     Except.error e)
  | (st, none) =>
    ({ mgr with _motor_defs := st.motor_defs, _calibration := st.calibration,
                views := dinsert mgr.views component_name ⟨st.local_copy, st.mapping, false⟩ },
     Except.ok ⟨st.local_copy, st.mapping, false⟩)

/-- `FeetechBusManager._ensure_bus`: lazily construct the Bus Handle from
the current Global Namespace and Global Calibration Table.  The handle
starts disconnected with an empty register store; `self._calibration or
None` means an empty manager table yields a handle with an empty
calibration table. -/
def FeetechBusManager.ensure_bus (mgr : FeetechBusManager) : FeetechBusManager :=
  match mgr.bus with
  | some _ => mgr
  | none =>
    let b : FeetechMotorsBus :=
      ⟨mgr.config.port, mgr._motor_defs, mgr._calibration,
       mgr.config.protocol_version, false, []⟩
    { mgr with bus := some b }

/-- `FeetechBusManager.acquire(handshake=True)`: ensure the handle exists,
increment the reference count, and physically connect (emitting the connect
event) only when the count just became 1 and the handle is not connected.
The parameter is an `Option Bool` because the Python body checks
`handshake is None` and falls back to `config.handshake_on_connect`. -/
def FeetechBusManager.acquire (mgr : FeetechBusManager)
    (handshake : Option Bool := some true) :
    FeetechBusManager × List PhysEvent :=
  let mgr1 := mgr.ensure_bus
  let mgr2 := { mgr1 with _refcount := mgr1._refcount + 1 }
  match mgr2.bus with
  | none => (mgr2, [])
  | some b =>
    if mgr2._refcount = 1 ∧ b.is_connected = false then
      let handshake_flag :=
        match handshake with
        | none => mgr2.config.handshake_on_connect
        | some hs => hs
      ({ mgr2 with bus := some { b with is_connected := true } },
       [PhysEvent.connect handshake_flag])
    else (mgr2, [])

/-- `FeetechBusManager.release(disable_torque=True)`: a no-op when the
count is already zero; otherwise decrement and, exactly on the transition to
zero with a connected handle, physically disconnect. -/
def FeetechBusManager.release (mgr : FeetechBusManager)
    (disable_torque : Bool := true) : FeetechBusManager × List PhysEvent :=
  if mgr._refcount = 0 then (mgr, [])
  else
    let mgr1 := { mgr with _refcount := mgr._refcount - 1 }
    match mgr1.bus with
    | none => (mgr1, [])
    | some b =>
      if mgr1._refcount = 0 ∧ b.is_connected = true then
        ({ mgr1 with bus := some { b with is_connected := false } },
         [PhysEvent.disconnect disable_torque])
      else (mgr1, [])

/-- `FeetechBusManager.is_connected`:
`bool(self.bus and self.bus.is_connected)`. -/
def FeetechBusManager.is_connected (mgr : FeetechBusManager) : Bool :=
  match mgr.bus with
  | none => false
  | some b => b.is_connected

/-- `FeetechBusView._translate_motor`: `None` passes through, an `int`
passes through unchanged, a `str` is looked up in `local_to_bus`
(`KeyError` when absent). -/
def FeetechBusView._translate_motor (v : FeetechBusView)
    (motor : Option MotorRef) : Except BusError (Option MotorRef) :=
  match motor with
  | none => Except.ok none
  | some (MotorRef.id i) => Except.ok (some (MotorRef.id i))
  | some (MotorRef.name s) =>
    match alookup v.local_to_bus s with
    | some g => Except.ok (some (MotorRef.name g))
    | none => Except.error (BusError.keyError s)

/-- The list comprehension `[self.local_to_bus[name] for name in names]`:
translates names left to right, raising `KeyError` at the first name absent
from the map. -/
def translateNames (map : List (String × String)) :
    List String → Except BusError (List String)
  | [] => Except.ok []
  | n :: rest =>
    match alookup map n with
    | none => Except.error (BusError.keyError n)
    | some g =>
      match translateNames map rest with
      | Except.error e => Except.error e
      | Except.ok gs => Except.ok (g :: gs)

/-- `FeetechBusView._translate_motors`: `None` means all local motors, a
single name becomes a one-element list, a list is translated elementwise. -/
def FeetechBusView._translate_motors (v : FeetechBusView) (motors : MotorsArg) :
    Except BusError (List String) :=
  match motors with
  | MotorsArg.noArg => translateNames v.local_to_bus (dkeys v.local_motors)
  | MotorsArg.one m =>
    match alookup v.local_to_bus m with
    | some g => Except.ok [g]
    | none => Except.error (BusError.keyError m)
  | MotorsArg.many ms => translateNames v.local_to_bus ms

/-- The dict comprehension
`{self.local_to_bus[name]: value for name, value in values.items()}`,
built left to right with dict-assignment semantics. -/
def translateDictGo (map : List (String × String)) {α : Type}
    (acc : List (String × α)) :
    List (String × α) → Except BusError (List (String × α))
  | [] => Except.ok acc
  | p :: rest =>
    match alookup map p.1 with
    | some g => translateDictGo map (dinsert acc g p.2) rest
    | none => Except.error (BusError.keyError p.1)

/-- `FeetechBusView._translate_dict`: rewrite every local key to its
bus-global name (`KeyError` when a key is not local to this view). -/
def FeetechBusView._translate_dict (v : FeetechBusView) {α : Type}
    (values : List (String × α)) : Except BusError (List (String × α)) :=
  translateDictGo v.local_to_bus [] values

/-- The dict comprehension
`{bus_name: local for local, bus_name in self.local_to_bus.items()}`. -/
def reverseMap (map : List (String × String)) : List (String × String) :=
  map.foldl (fun acc p => dinsert acc p.2 p.1) []

/-- The dict comprehension
`{reverse[name]: value for name, value in values.items() if name in reverse}`:
keep only keys with a reverse image, rewriting them to local names. -/
def mapLocalGo (reverse : List (String × String)) {α : Type}
    (acc : List (String × α)) : List (String × α) → List (String × α)
  | [] => acc
  | p :: rest =>
    match alookup reverse p.1 with
    | some l => mapLocalGo reverse (dinsert acc l p.2) rest
    | none => mapLocalGo reverse acc rest

/-- `FeetechBusView._map_dict_to_local`: invert `local_to_bus` and rewrite a
bus-global-keyed dictionary back to local names, silently dropping keys
without a reverse image. -/
def FeetechBusView._map_dict_to_local (v : FeetechBusView) {α : Type}
    (values : List (String × α)) : List (String × α) :=
  mapLocalGo (reverseMap v.local_to_bus) [] values

/-- `FeetechBusView.is_connected`:
`bool(self.manager.bus and self.manager.bus.is_connected)`. -/
def FeetechBusView.is_connected (_v : FeetechBusView)
    (mgr : FeetechBusManager) : Bool :=
  mgr.is_connected

/-- The generator `all(self.local_to_bus[name] in bus.calibration for name
in self.local_motors)`: short-circuits at the first motor whose bus name is
missing from the handle's calibration, raising `KeyError` only when a name
absent from the map is actually reached. -/
def calibratedGo (map : List (String × String))
    (cal : List (String × MotorCalibration)) :
    List (String × Motor) → Except BusError Bool
  | [] => Except.ok true
  | p :: rest =>
    match alookup map p.1 with
    | none => Except.error (BusError.keyError p.1)
    | some g =>
      if (alookup cal g).isSome then calibratedGo map cal rest
      else Except.ok false

/-- `FeetechBusView.is_calibrated`: false when the handle is absent or
disconnected, else true iff every local motor's bus-global name is a key of
the handle's calibration table. -/
def FeetechBusView.is_calibrated (v : FeetechBusView)
    (mgr : FeetechBusManager) : Except BusError Bool :=
  match mgr.bus with
  | none => Except.ok false
  | some b =>
    if b.is_connected = false then Except.ok false
    else calibratedGo v.local_to_bus b.calibration v.local_motors

/-- `FeetechBusView.connect(handshake=True)`: forward to `manager.acquire`
and mark the view attached. -/
def FeetechBusView.connect (v : FeetechBusView) (mgr : FeetechBusManager)
    (handshake : Option Bool := some true) :
    FeetechBusView × FeetechBusManager × List PhysEvent :=
  ({ v with _connected := true }, (mgr.acquire handshake).1,
   (mgr.acquire handshake).2)

/-- `FeetechBusView.disable_torque(motors=None, num_retry=0)`: translate the
subset, then forward to the handle only when the subset is non-empty and the
handle exists; otherwise silently do nothing. -/
def FeetechBusView.disable_torque (v : FeetechBusView)
    (mgr : FeetechBusManager) (motors : MotorsArg := MotorsArg.noArg)
    (_num_retry : Nat := 0) : Except BusError (List PhysEvent) :=
  match v._translate_motors motors with
  | Except.error e => Except.error e
  | Except.ok subset =>
    if subset ≠ [] ∧ mgr.bus.isSome then
      Except.ok [PhysEvent.disableTorque subset]
    else Except.ok []

/-- `FeetechBusView.enable_torque(motors=None, num_retry=0)`: same shape as
`disable_torque`. -/
def FeetechBusView.enable_torque (v : FeetechBusView)
    (mgr : FeetechBusManager) (motors : MotorsArg := MotorsArg.noArg)
    (_num_retry : Nat := 0) : Except BusError (List PhysEvent) :=
  match v._translate_motors motors with
  | Except.error e => Except.error e
  | Except.ok subset =>
    if subset ≠ [] ∧ mgr.bus.isSome then
      Except.ok [PhysEvent.enableTorque subset]
    else Except.ok []

/-- `FeetechBusView.disconnect(disable_torque=True)`: a no-op when not
attached; otherwise disable local torque first (if requested and the shared
bus is connected), forward to `manager.release`, and mark detached. -/
def FeetechBusView.disconnect (v : FeetechBusView) (mgr : FeetechBusManager)
    (disable_torque : Bool := true) :
    Except BusError (FeetechBusView × FeetechBusManager × List PhysEvent) :=
  if v._connected = false then Except.ok (v, mgr, [])
  else
    match (if disable_torque ∧ v.is_connected mgr then
             v.disable_torque mgr MotorsArg.noArg 0
           else Except.ok []) with
    | Except.error e => Except.error e
    | Except.ok t1 =>
      Except.ok ({ v with _connected := false }, (mgr.release disable_torque).1,
        t1 ++ (mgr.release disable_torque).2)

/-- `FeetechBusView.write(data_name, motor, value, ...)`: raises
UninitializedBusError when the handle is absent, else forwards the
translated motor reference to the handle. -/
def FeetechBusView.write (v : FeetechBusView) (mgr : FeetechBusManager)
    (data_name : String) (motor : MotorRef) (value : Int)
    (_normalize : Bool := true) (_num_retry : Nat := 0) :
    Except BusError (List PhysEvent) :=
  match mgr.bus with
  | none => Except.error BusError.uninitializedBus
  | some _ =>
    match v._translate_motor (some motor) with
    | Except.error e => Except.error e
    | Except.ok target => Except.ok [PhysEvent.write data_name target value]

/-- The handle's register store after a batch write: each payload entry
stored under `(data_name, bus-global name)` (modelled from the spec's
batch register write, spec §2/§8). -/
def storeAfterWrite (dn : String) (payload : List (String × Int))
    (s : List ((String × String) × Int)) : List ((String × String) × Int) :=
  payload.foldl (fun acc p => dinsert acc (dn, p.1) p.2) s

/-- `FeetechBusView.sync_write(data_name, values, ...)`: raises
UninitializedBusError when the handle is absent, else writes the translated
payload into the handle's register store. -/
def FeetechBusView.sync_write (v : FeetechBusView) (mgr : FeetechBusManager)
    (data_name : String) (values : List (String × Int))
    (_normalize : Bool := true) (_num_retry : Nat := 0) :
    Except BusError (FeetechBusManager × List PhysEvent) :=
  match mgr.bus with
  | none => Except.error BusError.uninitializedBus
  | some b =>
    match v._translate_dict values with
    | Except.error e => Except.error e
    | Except.ok payload =>
      let b1 := { b with store := storeAfterWrite data_name payload b.store }
      Except.ok ({ mgr with bus := some b1 },
        [PhysEvent.syncWrite data_name (dkeys payload)])

/-- `FeetechBusView.sync_read(data_name, motors=None, ...)`: raises
UninitializedBusError when the handle is absent, else reads the translated
subset from the handle (which echoes its register store) and maps the
result back to local names. -/
def FeetechBusView.sync_read (v : FeetechBusView) (mgr : FeetechBusManager)
    (data_name : String) (motors : MotorsArg := MotorsArg.noArg)
    (_normalize : Bool := true) (_num_retry : Nat := 0) :
    Except BusError (List (String × Int) × List PhysEvent) :=
  match mgr.bus with
  | none => Except.error BusError.uninitializedBus
  | some b =>
    match v._translate_motors motors with
    | Except.error e => Except.error e
    | Except.ok subset =>
      let result := subset.filterMap
        (fun g => (alookup b.store (data_name, g)).map (fun x => (g, x)))
      Except.ok (v._map_dict_to_local result,
        [PhysEvent.syncRead data_name subset])

/-- `FeetechBusView.set_half_turn_homings(motors=None)`: raises
UninitializedBusError when the handle is absent, else forwards the
translated subset and maps the handle's result (modelled from the spec as a
mapping keyed by the requested bus-global motors) back to local names. -/
def FeetechBusView.set_half_turn_homings (v : FeetechBusView)
    (mgr : FeetechBusManager) (motors : MotorsArg := MotorsArg.noArg) :
    Except BusError (List (String × Int) × List PhysEvent) :=
  match mgr.bus with
  | none => Except.error BusError.uninitializedBus
  | some _ =>
    match v._translate_motors motors with
    | Except.error e => Except.error e
    | Except.ok subset =>
      let result := subset.map (fun g => (g, 0))
      Except.ok (v._map_dict_to_local result,
        [PhysEvent.setHomings subset])

/-- `FeetechBusView.record_ranges_of_motion(motors=None)`: raises
UninitializedBusError when the handle is absent, else forwards the
translated subset and maps both returned dictionaries (modelled from the
spec as mappings keyed by the requested bus-global motors) back to local
names. -/
def FeetechBusView.record_ranges_of_motion (v : FeetechBusView)
    (mgr : FeetechBusManager) (motors : MotorsArg := MotorsArg.noArg) :
    Except BusError ((List (String × Int)) × (List (String × Int)) × List PhysEvent) :=
  match mgr.bus with
  | none => Except.error BusError.uninitializedBus
  | some _ =>
    match v._translate_motors motors with
    | Except.error e => Except.error e
    | Except.ok subset =>
      let mins := subset.map (fun g => (g, 0))
      let maxes := subset.map (fun g => (g, 0))
      Except.ok (v._map_dict_to_local mins, v._map_dict_to_local maxes,
        [PhysEvent.recordRanges subset])

/-- `FeetechBusView.write_calibration(calibration)`: raises
UninitializedBusError when the handle is absent, else stores the translated
calibration on the handle (modelled from the spec: the handle caches the
written table as its calibration storage). -/
def FeetechBusView.write_calibration (v : FeetechBusView)
    (mgr : FeetechBusManager) (calibration : List (String × MotorCalibration)) :
    Except BusError (FeetechBusManager × List PhysEvent) :=
  match mgr.bus with
  | none => Except.error BusError.uninitializedBus
  | some b =>
    match v._translate_dict calibration with
    | Except.error e => Except.error e
    | Except.ok translated =>
      Except.ok ({ mgr with bus := some { b with calibration := translated } },
        [PhysEvent.writeCalibration (dkeys translated)])

/-- `FeetechBusView.setup_motor(motor, initial_baudrate=None,
initial_id=None)`: raises UninitializedBusError when the handle is absent,
else forwards through `_translate_motor` (so an `int` motor reaches the
handle unchanged, despite the `str` annotation). -/
def FeetechBusView.setup_motor (v : FeetechBusView) (mgr : FeetechBusManager)
    (motor : MotorRef) (initial_baudrate : Option Int := none)
    (initial_id : Option Int := none) : Except BusError (List PhysEvent) :=
  match mgr.bus with
  | none => Except.error BusError.uninitializedBus
  | some _ =>
    match v._translate_motor (some motor) with
    | Except.error e => Except.error e
    | Except.ok target =>
      Except.ok [PhysEvent.setupMotor target initial_baudrate initial_id]

/-- Iterated `acquire`: `n` successive calls, concatenating the physical
traces. -/
def acquireN (handshake : Option Bool) :
    Nat → FeetechBusManager → FeetechBusManager × List PhysEvent
  | 0, mgr => (mgr, [])
  | n + 1, mgr =>
    ((acquireN handshake n (mgr.acquire handshake).1).1,
     (mgr.acquire handshake).2 ++ (acquireN handshake n (mgr.acquire handshake).1).2)

/-- Iterated `release`: `n` successive calls, concatenating the physical
traces. -/
def releaseN (disable_torque : Bool) :
    Nat → FeetechBusManager → FeetechBusManager × List PhysEvent
  | 0, mgr => (mgr, [])
  | n + 1, mgr =>
    ((releaseN disable_torque n (mgr.release disable_torque).1).1,
     (mgr.release disable_torque).2 ++
       (releaseN disable_torque n (mgr.release disable_torque).1).2)

/-- Every local motor name of the view has an entry in `local_to_bus`
(spec §3: the Local-to-Global Map is total); holds for every view built by
`register_component`. -/
def viewWF (v : FeetechBusView) : Bool :=
  v.local_motors.all (fun p => (alookup v.local_to_bus p.1).isSome)

/-- Every motor name mentioned by a `motors` argument is in the view's
`local_to_bus` map. -/
def motorsArgOK (v : FeetechBusView) : MotorsArg → Bool
  | MotorsArg.noArg => viewWF v
  | MotorsArg.one m => (alookup v.local_to_bus m).isSome
  | MotorsArg.many ms => ms.all (fun m => (alookup v.local_to_bus m).isSome)

/-- The view's local-to-global map is injective and has unique keys
(spec §3: total and injective). -/
def mapInjective (v : FeetechBusView) : Prop :=
  (dkeys v.local_to_bus).Nodup ∧ (v.local_to_bus.map Prod.snd).Nodup

instance (v : FeetechBusView) : Decidable (mapInjective v) := by
  unfold mapInjective
  infer_instance

/-- The handshake flag resolved by `acquire`:
`self.config.handshake_on_connect if handshake is None else handshake`. -/
def hsFlag (mgr : FeetechBusManager) : Option Bool → Bool
  | none => mgr.config.handshake_on_connect
  | some h => h

/-! ### Shared concrete fixtures -/

/-- A concrete shared-bus configuration. -/
def exConfig : SharedBusAssemblyConfig := ⟨"feetech", "/dev/ttyACM0", 0, true⟩

/-- A concrete motor definition with a given local id. -/
def exMotor (i : Int) : Motor := ⟨i, "sts3215", "range_m100_100"⟩

/-- A freshly constructed manager: empty namespace, no handle, count 0. -/
def exMgr0 : FeetechBusManager := ⟨"shared", exConfig, [], [], [], none, 0⟩

/-- The manager after one successful registration of component `left` with
motor `shoulder` (id 1) under prefix `left_`. -/
def exMgrLeft : FeetechBusManager :=
  (exMgr0.register_component "left" [("shoulder", exMotor 1)] "left_" 0 none).1

/-- A failing registration whose second motor collides with the already
registered `left_shoulder`. -/
def exFailedReg : FeetechBusManager × Except BusError FeetechBusView :=
  exMgrLeft.register_component "bad"
    [("elbow", exMotor 1), ("shoulder", exMotor 2)] "left_" 6 none

/-- The view corresponding to component `left` (detached). -/
def exViewLeft : FeetechBusView :=
  ⟨[("shoulder", exMotor 1)], [("shoulder", "left_shoulder")], false⟩

/-- The manager after `left` registered and one `acquire`: handle
constructed and connected, reference count 1. -/
def exMgrConn : FeetechBusManager := (exMgrLeft.acquire (some true)).1

/-- The Bus Handle held by `exMgrConn`. -/
def exBusConn : FeetechMotorsBus :=
  ⟨"/dev/ttyACM0", [("left_shoulder", offsetMotor 0 (exMotor 1))], [], 0, true, []⟩

/-- The translation of a local-keyed dictionary to bus-global keys, entry by
entry in order, skipping keys absent from the map (used to state what
`_translate_dict` produces when no key is missing). -/
def busImage (v : FeetechBusView) {α : Type} (values : List (String × α)) :
    List (String × α) :=
  values.filterMap (fun p => (alookup v.local_to_bus p.1).map (fun g => (g, p.2)))

/-- `every local motor's bus-global name is a key of the given table`,
the membership test of `is_calibrated`, evaluated against an arbitrary
calibration table. -/
def allCalibratedIn (v : FeetechBusView)
    (table : List (String × MotorCalibration)) : Bool :=
  v.local_motors.all (fun p =>
    match alookup v.local_to_bus p.1 with
    | some g => (alookup table g).isSome
    | none => false)

/-- The manager after `left` registered, one `acquire`, and a
`write_calibration` through the view: the handle's calibration table now
holds `left_shoulder` while the manager's `_calibration` is still empty. -/
def exMgrCal : FeetechBusManager :=
  (exViewLeft.write_calibration exMgrConn
    [("shoulder", MotorCalibration.mk 42)]).toOption.elim exMgrConn Prod.fst

/-- The Bus Handle held by `exMgrCal`. -/
def exBusCal : FeetechMotorsBus :=
  ⟨"/dev/ttyACM0", [("left_shoulder", offsetMotor 0 (exMotor 1))],
   [("left_shoulder", MotorCalibration.mk 42)], 0, true, []⟩

/-- A two-motor view (prefix `right_`), attached, for round-trip tests. -/
def exViewRight : FeetechBusView :=
  ⟨[("shoulder", exMotor 7), ("elbow", exMotor 8)],
   [("shoulder", "right_shoulder"), ("elbow", "right_elbow")], true⟩

/-! ### End of definitions; theorems follow. -/

section DictLemmas

variable {κ α : Type} [DecidableEq κ]

@[simp] theorem alookup_nil (k : κ) : alookup ([] : List (κ × α)) k = none := rfl

@[simp] theorem alookup_cons (p : κ × α) (d : List (κ × α)) (k : κ) :
    alookup (p :: d) k = if p.1 = k then some p.2 else alookup d k := rfl

theorem alookup_append (d₁ d₂ : List (κ × α)) (k : κ) :
    alookup (d₁ ++ d₂) k =
      match alookup d₁ k with
      | some v => some v
      | none => alookup d₂ k := by
  induction d₁ with
  | nil => simp
  | cons p rest ih =>
    by_cases h : p.1 = k <;> simp [h, ih]

theorem alookup_append_of_none {d₁ : List (κ × α)} {k : κ}
    (h : alookup d₁ k = none) (d₂ : List (κ × α)) :
    alookup (d₁ ++ d₂) k = alookup d₂ k := by
  rw [alookup_append, h]

theorem alookup_append_of_some {d₁ : List (κ × α)} {k : κ} {v : α}
    (h : alookup d₁ k = some v) (d₂ : List (κ × α)) :
    alookup (d₁ ++ d₂) k = some v := by
  rw [alookup_append, h]

theorem dinsert_of_fresh {d : List (κ × α)} {k : κ}
    (h : alookup d k = none) (v : α) : dinsert d k v = d ++ [(k, v)] := by
  simp [dinsert, h]

theorem alookup_map_update {k k' : κ} (h : k' ≠ k) (d : List (κ × α)) (v : α) :
    alookup (d.map (fun p => if p.1 = k then (k, v) else p)) k' = alookup d k' := by
  induction d with
  | nil => simp
  | cons p rest ih =>
    by_cases hp : p.1 = k
    · simp [hp, Ne.symm h, ih]
    · by_cases hp' : p.1 = k' <;> simp [hp, hp', if_neg h, ih]

theorem alookup_dinsert_ne {k k' : κ} (h : k' ≠ k) (d : List (κ × α)) (v : α) :
    alookup (dinsert d k v) k' = alookup d k' := by
  unfold dinsert
  by_cases hs : (alookup d k).isSome
  · simp only [hs, if_true]
    exact alookup_map_update h d v
  · rw [Option.not_isSome_iff_eq_none] at hs
    simp only [hs, Option.isSome_none, Bool.false_eq_true, if_false]
    rw [alookup_append]
    cases hl : alookup d k' with
    | some v' => rfl
    | none => simp [Ne.symm h]

theorem alookup_dinsert_self (d : List (κ × α)) (k : κ) (v : α) :
    alookup (dinsert d k v) k = some v := by
  unfold dinsert
  by_cases hs : (alookup d k).isSome
  · simp only [hs, if_true]
    induction d with
    | nil => simp [alookup] at hs
    | cons p rest ih =>
      by_cases hp : p.1 = k
      · simp [hp]
      · simp only [alookup_cons, hp, if_false] at hs
        simp [hp, ih hs]
  · rw [Option.not_isSome_iff_eq_none] at hs
    simp only [hs, Option.isSome_none, Bool.false_eq_true, if_false]
    rw [alookup_append_of_none hs]
    simp

theorem alookup_eq_none_iff {d : List (κ × α)} {k : κ} :
    alookup d k = none ↔ k ∉ dkeys d := by
  induction d with
  | nil => simp [dkeys]
  | cons p rest ih =>
    constructor
    · intro h hmem
      by_cases hp : p.1 = k
      · simp [hp] at h
      · simp only [alookup_cons, hp, if_false] at h
        rcases List.mem_cons.mp hmem with hh | hh
        · exact hp (by simpa [dkeys] using hh.symm)
        · exact (ih.mp h) (by simpa [dkeys] using hh)
    · intro h
      simp only [dkeys, List.map_cons, List.mem_cons, not_or] at h
      have hp : p.1 ≠ k := fun he => h.1 he.symm
      simp only [alookup_cons, hp, if_false]
      exact ih.mpr (by simpa [dkeys] using h.2)

theorem mem_of_alookup {d : List (κ × α)} {k : κ} {v : α}
    (h : alookup d k = some v) : (k, v) ∈ d := by
  induction d with
  | nil => simp [alookup] at h
  | cons p rest ih =>
    by_cases hp : p.1 = k
    · simp only [alookup_cons, hp, if_true, Option.some.injEq] at h
      have hpe : (k, v) = p := by cases p; simp_all
      exact hpe ▸ List.mem_cons_self _ _
    · simp only [alookup_cons, hp, if_false] at h
      exact List.mem_cons_of_mem _ (ih h)

theorem alookup_of_mem_nodup {d : List (κ × α)} {k : κ} {v : α}
    (hn : (dkeys d).Nodup) (h : (k, v) ∈ d) : alookup d k = some v := by
  induction d with
  | nil => simp at h
  | cons p rest ih =>
    simp only [dkeys, List.map_cons, List.nodup_cons] at hn
    rcases List.mem_cons.mp h with h | h
    · subst h; simp
    · have hne : p.1 ≠ k := by
        intro he
        exact hn.1 (he ▸ (List.mem_map.mpr ⟨(k, v), h, rfl⟩))
      simp [hne, ih hn.2 h]

theorem alookup_isSome_of_isSome {d : List (κ × α)} {k : κ}
    (h : (alookup d k).isSome = true) (k' : κ) (v : α) :
    (alookup (dinsert d k' v) k).isSome = true := by
  by_cases he : k = k'
  · subst he; simp [alookup_dinsert_self]
  · rw [alookup_dinsert_ne he]; exact h

end DictLemmas

/-- Left-cancellation for string append, needed because bus-global names are
built as `prefix ++ local_name`. -/
theorem string_append_cancel {a b c : String} (h : a ++ b = a ++ c) : b = c := by
  have hd : a.data ++ b.data = a.data ++ c.data := by
    have := congrArg String.data h
    simpa using this
  cases b; cases c
  simp only [List.append_cancel_left_eq] at hd
  simp [hd]

/-! ### Lemmas about `register_component` -/

theorem registerLoop_ok (pfx : String) (off : Int)
    (ic : Option (List (String × MotorCalibration)))
    (motors : List (String × Motor)) (st : RegState)
    (hnd : (dkeys motors).Nodup)
    (hdef : ∀ p ∈ motors, alookup st.motor_defs (pfx ++ p.1) = none)
    (hlc : ∀ p ∈ motors, alookup st.local_copy p.1 = none)
    (hmp : ∀ p ∈ motors, alookup st.mapping p.1 = none) :
    registerLoop pfx off ic motors st =
      (⟨st.motor_defs ++ motors.map (fun p => (pfx ++ p.1, offsetMotor off p.2)),
        motors.foldl (fun c p => calStep ic pfx c p.1) st.calibration,
        st.local_copy ++ motors.map (fun p => (p.1, offsetMotor off p.2)),
        st.mapping ++ motors.map (fun p => (p.1, pfx ++ p.1))⟩, none) := by
  induction motors generalizing st with
  | nil => cases st; simp [registerLoop]
  | cons q rest ih =>
    obtain ⟨n, m⟩ := q
    have hmem : (n, m) ∈ (n, m) :: rest := List.mem_cons_self _ _
    have hfresh : alookup st.motor_defs (pfx ++ n) = none := hdef _ hmem
    have hlc0 : alookup st.local_copy n = none := hlc _ hmem
    have hmp0 : alookup st.mapping n = none := hmp _ hmem
    simp only [dkeys, List.map_cons, List.nodup_cons] at hnd
    have hne : ∀ q' ∈ rest, (q' : String × Motor).1 ≠ n := by
      intro q' hq' he
      exact hnd.1 (he ▸ List.mem_map.mpr ⟨q', hq', rfl⟩)
    have hnds : (dkeys rest).Nodup := hnd.2
    unfold registerLoop
    simp only [hfresh, Option.isSome_none, Bool.false_eq_true, if_false]
    rw [ih _ hnds ?hdef ?hlc ?hmp]
    case hdef =>
      intro q' hq'
      show alookup (dinsert st.motor_defs (pfx ++ n) _) (pfx ++ q'.1) = none
      rw [alookup_dinsert_ne (fun he => hne q' hq' (string_append_cancel he))]
      exact hdef q' (List.mem_cons_of_mem _ hq')
    case hlc =>
      intro q' hq'
      show alookup (dinsert st.local_copy n _) q'.1 = none
      rw [alookup_dinsert_ne (hne q' hq')]
      exact hlc q' (List.mem_cons_of_mem _ hq')
    case hmp =>
      intro q' hq'
      show alookup (dinsert st.mapping n _) q'.1 = none
      rw [alookup_dinsert_ne (hne q' hq')]
      exact hmp q' (List.mem_cons_of_mem _ hq')
    simp only [dinsert_of_fresh hfresh, dinsert_of_fresh hlc0, dinsert_of_fresh hmp0]
    simp [offsetMotor, List.append_assoc, List.foldl_cons]

theorem registerLoop_collision (pfx : String) (off : Int)
    (ic : Option (List (String × MotorCalibration)))
    (pre : List (String × Motor)) (nm : String) (mo : Motor)
    (post : List (String × Motor)) (st : RegState)
    (hnd : (dkeys pre).Nodup) (hnm : nm ∉ dkeys pre)
    (hdef : ∀ p ∈ pre, alookup st.motor_defs (pfx ++ p.1) = none)
    (hlc : ∀ p ∈ pre, alookup st.local_copy p.1 = none)
    (hmp : ∀ p ∈ pre, alookup st.mapping p.1 = none)
    (hcol : (alookup st.motor_defs (pfx ++ nm)).isSome = true) :
    registerLoop pfx off ic (pre ++ (nm, mo) :: post) st =
      (⟨st.motor_defs ++ pre.map (fun p => (pfx ++ p.1, offsetMotor off p.2)),
        pre.foldl (fun c p => calStep ic pfx c p.1) st.calibration,
        st.local_copy ++ pre.map (fun p => (p.1, offsetMotor off p.2)),
        st.mapping ++ pre.map (fun p => (p.1, pfx ++ p.1))⟩,
       some (BusError.nameCollision (pfx ++ nm))) := by
  induction pre generalizing st with
  | nil =>
    cases st
    simp [registerLoop, hcol]
  | cons q pre' ih =>
    obtain ⟨n, m⟩ := q
    have hmem : (n, m) ∈ (n, m) :: pre' := List.mem_cons_self _ _
    have hfresh : alookup st.motor_defs (pfx ++ n) = none := hdef _ hmem
    have hlc0 : alookup st.local_copy n = none := hlc _ hmem
    have hmp0 : alookup st.mapping n = none := hmp _ hmem
    simp only [dkeys, List.map_cons, List.nodup_cons] at hnd
    have hne : ∀ q' ∈ pre', (q' : String × Motor).1 ≠ n := by
      intro q' hq' he
      exact hnd.1 (he ▸ List.mem_map.mpr ⟨q', hq', rfl⟩)
    have hnm' : nm ∉ dkeys pre' := by
      intro hmem'
      exact hnm (by simpa [dkeys] using Or.inr hmem')
    show registerLoop pfx off ic ((n, m) :: (pre' ++ (nm, mo) :: post)) st = _
    unfold registerLoop
    simp only [hfresh, Option.isSome_none, Bool.false_eq_true, if_false]
    rw [ih _ hnd.2 hnm' ?hdef ?hlc ?hmp ?hcol]
    case hdef =>
      intro q' hq'
      show alookup (dinsert st.motor_defs (pfx ++ n) _) (pfx ++ q'.1) = none
      rw [alookup_dinsert_ne (fun he => hne q' hq' (string_append_cancel he))]
      exact hdef q' (List.mem_cons_of_mem _ hq')
    case hlc =>
      intro q' hq'
      show alookup (dinsert st.local_copy n _) q'.1 = none
      rw [alookup_dinsert_ne (hne q' hq')]
      exact hlc q' (List.mem_cons_of_mem _ hq')
    case hmp =>
      intro q' hq'
      show alookup (dinsert st.mapping n _) q'.1 = none
      rw [alookup_dinsert_ne (hne q' hq')]
      exact hmp q' (List.mem_cons_of_mem _ hq')
    case hcol =>
      exact alookup_isSome_of_isSome hcol _ _
    simp only [dinsert_of_fresh hfresh, dinsert_of_fresh hlc0, dinsert_of_fresh hmp0]
    simp [offsetMotor, List.append_assoc, List.foldl_cons]

theorem dkeys_map_pfx (pfx : String) (off : Int) (motors : List (String × Motor)) :
    dkeys (motors.map (fun p => (pfx ++ p.1, offsetMotor off p.2)))
      = (dkeys motors).map (fun n => pfx ++ n) := by
  simp [dkeys, List.map_map]

theorem pfx_append_injective (pfx : String) :
    Function.Injective (fun n : String => pfx ++ n) :=
  fun _ _ h => string_append_cancel h

/-! ### C2: successful registration -/

/-- C2: a successful `register_component` with prefix P and offset O inserts
`P ++ n ↦ Motor (i + O)` (model and normalization mode unchanged) into the
Global Namespace for every local motor `(n, i)`, and returns a View holding
the local names with offset ids and the local-to-global map `n ↦ P ++ n`. -/
theorem c2_register_success (mgr : FeetechBusManager) (cname : String)
    (motors : List (String × Motor)) (pfx : String) (off : Int)
    (ic : Option (List (String × MotorCalibration)))
    (hnd : (dkeys motors).Nodup)
    (hfresh : ∀ p ∈ motors, alookup mgr._motor_defs (pfx ++ p.1) = none) :
    (mgr.register_component cname motors pfx off ic).2 =
      Except.ok ⟨motors.map (fun p => (p.1, offsetMotor off p.2)),
                 motors.map (fun p => (p.1, pfx ++ p.1)), false⟩ ∧
    ∀ n m, (n, m) ∈ motors →
      alookup (mgr.register_component cname motors pfx off ic).1._motor_defs
          (pfx ++ n) = some (offsetMotor off m) := by
  unfold FeetechBusManager.register_component
  rw [registerLoop_ok pfx off ic motors ⟨mgr._motor_defs, mgr._calibration, [], []⟩
      hnd hfresh (by intro p _; simp) (by intro p _; simp)]
  refine ⟨rfl, ?_⟩
  intro n m hm
  show alookup (mgr._motor_defs ++ motors.map (fun p => (pfx ++ p.1, offsetMotor off p.2)))
      (pfx ++ n) = some (offsetMotor off m)
  rw [alookup_append_of_none (hfresh (n, m) hm)]
  apply alookup_of_mem_nodup
  · rw [dkeys_map_pfx]
    exact hnd.map (pfx_append_injective pfx)
  · exact List.mem_map.mpr ⟨(n, m), hm, rfl⟩

/-- Witness for C2 at the spec §8 scenario: registering `right` with motor
`shoulder` (id 1) under prefix `right_` and offset 6 on a manager already
holding `left_shoulder`. -/
theorem c2_register_success_witness :
    (exMgrLeft.register_component "right" [("shoulder", exMotor 1)] "right_" 6 none).2 =
      Except.ok ⟨[("shoulder", exMotor 1)].map (fun p => (p.1, offsetMotor 6 p.2)),
                 [("shoulder", exMotor 1)].map (fun p => (p.1, "right_" ++ p.1)), false⟩ ∧
    ∀ n m, (n, m) ∈ [("shoulder", exMotor 1)] →
      alookup (exMgrLeft.register_component "right" [("shoulder", exMotor 1)]
          "right_" 6 none).1._motor_defs ("right_" ++ n) = some (offsetMotor 6 m) :=
  c2_register_success exMgrLeft "right" [("shoulder", exMotor 1)] "right_" 6 none
    (by decide) (by decide)

/-! ### C1: collision handling is not atomic -/

/-- C1 counterexample: a registration whose second motor collides raises
NameCollisionError but leaves the first motor of the same call committed to
the Global Namespace, so the manager state is not "exactly what it was
before the call" for every position of the colliding motor. -/
theorem c1_counterexample :
    exFailedReg.2 = Except.error (BusError.nameCollision "left_shoulder") ∧
    exFailedReg.1._motor_defs ≠ exMgrLeft._motor_defs ∧
    alookup exFailedReg.1._motor_defs "left_elbow" = some (offsetMotor 6 (exMotor 1)) := by
  decide

/-- C1 (amended): a `register_component` call whose input contains a motor
whose bus-global name already exists raises NameCollisionError, and the
Global Namespace and Global Calibration Table afterwards equal their prior
state extended by exactly the motors strictly before the first colliding
entry; in particular nothing is committed only when the colliding motor is
first in the input dictionary. -/
theorem c1_register_collision_partial_commit (mgr : FeetechBusManager) (cname : String)
    (pre : List (String × Motor)) (nm : String) (mo : Motor)
    (post : List (String × Motor)) (pfx : String) (off : Int)
    (ic : Option (List (String × MotorCalibration)))
    (hnd : (dkeys pre).Nodup) (hnm : nm ∉ dkeys pre)
    (hfresh : ∀ p ∈ pre, alookup mgr._motor_defs (pfx ++ p.1) = none)
    (hcol : (alookup mgr._motor_defs (pfx ++ nm)).isSome = true) :
    mgr.register_component cname (pre ++ (nm, mo) :: post) pfx off ic =
      ({ mgr with
          _motor_defs := mgr._motor_defs ++
            pre.map (fun p => (pfx ++ p.1, offsetMotor off p.2)),
          _calibration := pre.foldl (fun c p => calStep ic pfx c p.1) mgr._calibration },
       Except.error (BusError.nameCollision (pfx ++ nm))) := by
  unfold FeetechBusManager.register_component
  rw [registerLoop_collision pfx off ic pre nm mo post
      ⟨mgr._motor_defs, mgr._calibration, [], []⟩ hnd hnm hfresh
      (by intro p _; simp) (by intro p _; simp) hcol]

/-! ### Connection lifecycle lemmas -/

theorem acquire_zero_spec (mgr : FeetechBusManager) (hs : Option Bool)
    (h0 : mgr._refcount = 0) (hc : mgr.is_connected = false) :
    (mgr.acquire hs).2 = [PhysEvent.connect (hsFlag mgr hs)] ∧
    (mgr.acquire hs).1._refcount = 1 ∧
    (mgr.acquire hs).1.is_connected = true := by
  unfold FeetechBusManager.acquire FeetechBusManager.ensure_bus
  cases hbus : mgr.bus with
  | none =>
    cases hs <;> simp [hbus, h0, hsFlag, FeetechBusManager.is_connected]
  | some b =>
    have hb : b.is_connected = false := by
      unfold FeetechBusManager.is_connected at hc
      rw [hbus] at hc
      exact hc
    cases hs <;> simp [hbus, h0, hb, hsFlag, FeetechBusManager.is_connected]

theorem acquire_connected_spec (mgr : FeetechBusManager) (hs : Option Bool)
    (h1 : 1 ≤ mgr._refcount) (hc : mgr.is_connected = true) :
    mgr.acquire hs = ({ mgr with _refcount := mgr._refcount + 1 }, []) := by
  unfold FeetechBusManager.acquire FeetechBusManager.ensure_bus
  cases hbus : mgr.bus with
  | none =>
    unfold FeetechBusManager.is_connected at hc
    rw [hbus] at hc
    simp at hc
  | some b =>
    have hb : b.is_connected = true := by
      unfold FeetechBusManager.is_connected at hc
      rw [hbus] at hc
      exact hc
    have hne : ¬(mgr._refcount + 1 = 1 ∧ b.is_connected = false) := by
      intro ⟨ha, _⟩
      omega
    simp [hbus, hne, hb]

theorem acquireN_connected (hs : Option Bool) (n : Nat) (mgr : FeetechBusManager)
    (h1 : 1 ≤ mgr._refcount) (hc : mgr.is_connected = true) :
    acquireN hs n mgr = ({ mgr with _refcount := mgr._refcount + n }, []) := by
  induction n generalizing mgr with
  | zero => cases mgr; simp [acquireN]
  | succ n ih =>
    rw [acquireN, acquire_connected_spec mgr hs h1 hc]
    rw [ih { mgr with _refcount := mgr._refcount + 1 } (by simp) hc]
    cases mgr
    simp
    omega

theorem release_pos_spec (mgr : FeetechBusManager) (dt : Bool)
    (h2 : 2 ≤ mgr._refcount) (_hc : mgr.is_connected = true) :
    mgr.release dt = ({ mgr with _refcount := mgr._refcount - 1 }, []) := by
  unfold FeetechBusManager.release
  have h0 : ¬mgr._refcount = 0 := by omega
  cases hbus : mgr.bus with
  | none => simp [h0, hbus]
  | some b =>
    have hne : ¬(mgr._refcount - 1 = 0 ∧ b.is_connected = true) := by
      intro ⟨ha, _⟩
      omega
    simp [h0, hbus, hne]

theorem release_last_spec (mgr : FeetechBusManager) (dt : Bool)
    (h1 : mgr._refcount = 1) (hc : mgr.is_connected = true) :
    (mgr.release dt).2 = [PhysEvent.disconnect dt] ∧
    (mgr.release dt).1._refcount = 0 ∧
    (mgr.release dt).1.is_connected = false := by
  unfold FeetechBusManager.release
  cases hbus : mgr.bus with
  | none =>
    unfold FeetechBusManager.is_connected at hc
    rw [hbus] at hc
    simp at hc
  | some b =>
    have hb : b.is_connected = true := by
      unfold FeetechBusManager.is_connected at hc
      rw [hbus] at hc
      exact hc
    simp [h1, hbus, hb, FeetechBusManager.is_connected]

theorem release_zero_spec (mgr : FeetechBusManager) (dt : Bool)
    (h0 : mgr._refcount = 0) : mgr.release dt = (mgr, []) := by
  unfold FeetechBusManager.release
  simp [h0]

theorem releaseN_connected (dt : Bool) (n : Nat) (mgr : FeetechBusManager)
    (h1 : n + 1 ≤ mgr._refcount) (hc : mgr.is_connected = true) :
    releaseN dt n mgr = ({ mgr with _refcount := mgr._refcount - n }, []) := by
  induction n generalizing mgr with
  | zero => cases mgr; simp [releaseN]
  | succ n ih =>
    rw [releaseN, release_pos_spec mgr dt (by omega) hc]
    rw [ih { mgr with _refcount := mgr._refcount - 1 } (by simp; omega) hc]
    cases mgr
    simp
    omega

theorem releaseN_to_zero (dt : Bool) (k : Nat) (mgr : FeetechBusManager)
    (hk : 1 ≤ k) (h1 : mgr._refcount = k) (hc : mgr.is_connected = true) :
    (releaseN dt k mgr).2 = [PhysEvent.disconnect dt] ∧
    (releaseN dt k mgr).1._refcount = 0 ∧
    (releaseN dt k mgr).1.is_connected = false := by
  induction k generalizing mgr with
  | zero => omega
  | succ k' ih =>
    rcases Nat.eq_zero_or_pos k' with hz | hpos
    · subst hz
      have hlast := release_last_spec mgr dt h1 hc
      simp only [releaseN]
      exact ⟨by rw [hlast.1]; rfl, hlast.2.1, hlast.2.2⟩
    · have hstep := release_pos_spec mgr dt (by omega) hc
      simp only [releaseN, hstep]
      have ihm := ih { mgr with _refcount := mgr._refcount - 1 }
        (by simpa using hpos) (by simp [h1]) hc
      exact ⟨by rw [ihm.1]; rfl, ihm.2.1, ihm.2.2⟩

/-! ### C3: reference-counted connect/disconnect -/

/-- C3: starting from reference count zero (handle absent or disconnected),
`k ≥ 1` acquires perform exactly one physical connect, emitted by the first
call with the resolved handshake flag; the count then equals `k` and the bus
is connected.  `k - 1` releases are silent and leave the count at 1; the
`k`-th release emits the single physical disconnect and returns the count to
zero, after which a further release is a no-op. -/
theorem c3_refcount_connect_disconnect (mgr : FeetechBusManager)
    (hs : Option Bool) (dt : Bool) (k : Nat) (hk : 1 ≤ k)
    (h0 : mgr._refcount = 0) (hc : mgr.is_connected = false) :
    (mgr.acquire hs).2 = [PhysEvent.connect (hsFlag mgr hs)] ∧
    (acquireN hs k mgr).2 = [PhysEvent.connect (hsFlag mgr hs)] ∧
    (acquireN hs k mgr).1._refcount = k ∧
    (acquireN hs k mgr).1.is_connected = true ∧
    (releaseN dt (k - 1) (acquireN hs k mgr).1).2 = [] ∧
    (releaseN dt (k - 1) (acquireN hs k mgr).1).1._refcount = 1 ∧
    (releaseN dt k (acquireN hs k mgr).1).2 = [PhysEvent.disconnect dt] ∧
    (releaseN dt k (acquireN hs k mgr).1).1._refcount = 0 ∧
    (releaseN dt k (acquireN hs k mgr).1).1.is_connected = false ∧
    (releaseN dt k (acquireN hs k mgr).1).1.release dt
      = ((releaseN dt k (acquireN hs k mgr).1).1, []) := by
  obtain ⟨hA1, hA2, hA3⟩ := acquire_zero_spec mgr hs h0 hc
  obtain ⟨k', rfl⟩ : ∃ k', k = k' + 1 := ⟨k - 1, by omega⟩
  simp only [Nat.add_sub_cancel]
  have hacqN : acquireN hs (k' + 1) mgr
      = ({ (mgr.acquire hs).1 with
            _refcount := (mgr.acquire hs).1._refcount + k' },
         (mgr.acquire hs).2 ++ []) := by
    rw [acquireN, acquireN_connected hs k' (mgr.acquire hs).1 (by omega) hA3]
  have hSrc : (acquireN hs (k' + 1) mgr).1._refcount = k' + 1 := by
    rw [hacqN]
    show (mgr.acquire hs).1._refcount + k' = k' + 1
    omega
  have hScon : (acquireN hs (k' + 1) mgr).1.is_connected = true := by
    rw [hacqN]
    show (mgr.acquire hs).1.is_connected = true
    exact hA3
  have hrelN := releaseN_connected dt k' (acquireN hs (k' + 1) mgr).1
    (by omega) hScon
  have hzero := releaseN_to_zero dt (k' + 1) (acquireN hs (k' + 1) mgr).1
    (by omega) hSrc hScon
  refine ⟨hA1, ?_, hSrc, hScon, ?_, ?_, hzero.1, hzero.2.1, hzero.2.2, ?_⟩
  · rw [hacqN, hA1]
    rfl
  · rw [hrelN]
  · rw [hrelN]
    show (acquireN hs (k' + 1) mgr).1._refcount - k' = 1
    omega
  · exact release_zero_spec _ dt hzero.2.1

/-- Witness for C3 at `k = 2` on a freshly registered manager. -/
theorem c3_refcount_connect_disconnect_witness :
    (exMgrLeft.acquire (some true)).2
        = [PhysEvent.connect (hsFlag exMgrLeft (some true))] ∧
    (acquireN (some true) 2 exMgrLeft).2
        = [PhysEvent.connect (hsFlag exMgrLeft (some true))] ∧
    (acquireN (some true) 2 exMgrLeft).1._refcount = 2 ∧
    (acquireN (some true) 2 exMgrLeft).1.is_connected = true ∧
    (releaseN true (2 - 1) (acquireN (some true) 2 exMgrLeft).1).2 = [] ∧
    (releaseN true (2 - 1) (acquireN (some true) 2 exMgrLeft).1).1._refcount = 1 ∧
    (releaseN true 2 (acquireN (some true) 2 exMgrLeft).1).2
        = [PhysEvent.disconnect true] ∧
    (releaseN true 2 (acquireN (some true) 2 exMgrLeft).1).1._refcount = 0 ∧
    (releaseN true 2 (acquireN (some true) 2 exMgrLeft).1).1.is_connected = false ∧
    (releaseN true 2 (acquireN (some true) 2 exMgrLeft).1).1.release true
      = ((releaseN true 2 (acquireN (some true) 2 exMgrLeft).1).1, []) :=
  c3_refcount_connect_disconnect exMgrLeft (some true) true 2
    (by decide) (by decide) (by decide)

/-! ### Name-translation lemmas -/

theorem translateNames_ok (map : List (String × String)) (names : List String)
    (h : ∀ nm ∈ names, (alookup map nm).isSome = true) :
    translateNames map names
      = Except.ok (names.filterMap (fun nm => alookup map nm)) := by
  induction names with
  | nil => rfl
  | cons nm rest ih =>
    obtain ⟨g, hg⟩ := Option.isSome_iff_exists.mp (h nm (List.mem_cons_self _ _))
    rw [translateNames, hg, ih (fun x hx => h x (List.mem_cons_of_mem _ hx))]
    simp [List.filterMap_cons, hg]

theorem translate_motors_ok (v : FeetechBusView) (ms : MotorsArg)
    (h : motorsArgOK v ms = true) :
    ∃ subset, v._translate_motors ms = Except.ok subset := by
  cases ms with
  | noArg =>
    have h' : v.local_motors.all
        (fun p => (alookup v.local_to_bus p.1).isSome) = true := h
    rw [List.all_eq_true] at h'
    have harg : ∀ nm ∈ dkeys v.local_motors,
        (alookup v.local_to_bus nm).isSome = true := by
      intro nm hnm
      obtain ⟨p, hp, rfl⟩ := List.mem_map.mp hnm
      exact h' p hp
    exact ⟨_, translateNames_ok v.local_to_bus (dkeys v.local_motors) harg⟩
  | one m =>
    have h' : (alookup v.local_to_bus m).isSome = true := h
    obtain ⟨g, hg⟩ := Option.isSome_iff_exists.mp h'
    refine ⟨[g], ?_⟩
    show (match alookup v.local_to_bus m with
          | some g' => Except.ok [g']
          | none => Except.error (BusError.keyError m)) = Except.ok [g]
    rw [hg]
  | many ls =>
    have h' : ls.all (fun m => (alookup v.local_to_bus m).isSome) = true := h
    rw [List.all_eq_true] at h'
    exact ⟨_, translateNames_ok v.local_to_bus ls h'⟩

theorem disable_torque_ok (v : FeetechBusView) (mgr : FeetechBusManager)
    (ms : MotorsArg) (nr : Nat) (h : motorsArgOK v ms = true) :
    ∃ t, v.disable_torque mgr ms nr = Except.ok t := by
  obtain ⟨subset, hsub⟩ := translate_motors_ok v ms h
  unfold FeetechBusView.disable_torque
  rw [hsub]
  by_cases hcond : subset ≠ [] ∧ mgr.bus.isSome <;> simp [hcond]

/-! ### C8: disconnect is a no-op when detached, and idempotent -/

theorem disconnect_not_attached (v : FeetechBusView) (mgr : FeetechBusManager)
    (dt : Bool) (h : v._connected = false) :
    v.disconnect mgr dt = Except.ok (v, mgr, []) := by
  unfold FeetechBusView.disconnect
  simp [h]

/-- C8: `disconnect` on a view that is not attached returns immediately,
leaving the view state, the manager state (in particular its reference
count) and the physical trace untouched; and whenever a `disconnect`
returns, a second `disconnect` on the resulting state is such a no-op, so
double-disconnect has the same effect as a single one. -/
theorem c8_disconnect_noop_idempotent (v : FeetechBusView)
    (mgr : FeetechBusManager) (dt : Bool) :
    (v._connected = false → v.disconnect mgr dt = Except.ok (v, mgr, [])) ∧
    (∀ v1 mgr1 t1, v.disconnect mgr dt = Except.ok (v1, mgr1, t1) →
      v1.disconnect mgr1 dt = Except.ok (v1, mgr1, [])) := by
  refine ⟨disconnect_not_attached v mgr dt, ?_⟩
  intro v1 mgr1 t1 h
  have hv1 : v1._connected = false := by
    unfold FeetechBusView.disconnect at h
    by_cases hvc : v._connected = false
    · rw [if_pos hvc] at h
      simp only [Except.ok.injEq, Prod.mk.injEq] at h
      rw [← h.1]
      exact hvc
    · rw [if_neg hvc] at h
      cases htq : (if dt ∧ v.is_connected mgr then
          v.disable_torque mgr MotorsArg.noArg 0 else Except.ok []) with
      | error e => rw [htq] at h; simp at h
      | ok t' =>
        rw [htq] at h
        simp only [Except.ok.injEq, Prod.mk.injEq] at h
        rw [← h.1]
  exact disconnect_not_attached v1 mgr1 dt hv1

/-- Witness for C8: a detached view's disconnect is a no-op, and after a
real disconnect the second disconnect is a no-op. -/
theorem c8_disconnect_noop_idempotent_witness :
    ((⟨[("shoulder", exMotor 1)], [("shoulder", "left_shoulder")], false⟩ :
        FeetechBusView).disconnect exMgrLeft true
      = Except.ok ((⟨[("shoulder", exMotor 1)], [("shoulder", "left_shoulder")],
          false⟩ : FeetechBusView), exMgrLeft, [])) :=
  (c8_disconnect_noop_idempotent _ exMgrLeft true).1 rfl

/-! ### C10: connect is not idempotent -/

/-- C10: on a fresh manager, `connect; connect; disconnect; disconnect`
through one view leaves the reference count at 1 and the physical
connection open: each `connect` increments the count, but the first
`disconnect` only decrements it to 1 (no physical disconnect) and the
second is a no-op because the attached flag is a single boolean. -/
theorem c10_connect_refcount_leak (mgr : FeetechBusManager) (v : FeetechBusView)
    (hs : Option Bool) (h0 : mgr._refcount = 0) (hc : mgr.is_connected = false)
    (hwf : viewWF v = true) :
    (v.connect mgr hs).2.1._refcount = 1 ∧
    ((v.connect mgr hs).1.connect (v.connect mgr hs).2.1 hs).2.1._refcount = 2 ∧
    ∃ v3 mgr3 t3,
      ((v.connect mgr hs).1.connect (v.connect mgr hs).2.1 hs).1.disconnect
          ((v.connect mgr hs).1.connect (v.connect mgr hs).2.1 hs).2.1 true
        = Except.ok (v3, mgr3, t3) ∧
      mgr3._refcount = 1 ∧ mgr3.is_connected = true ∧
      v3.disconnect mgr3 true = Except.ok (v3, mgr3, []) := by
  obtain ⟨hA1, hA2, hA3⟩ := acquire_zero_spec mgr hs h0 hc
  have hm2 : (mgr.acquire hs).1.acquire hs
      = ({ (mgr.acquire hs).1 with
            _refcount := (mgr.acquire hs).1._refcount + 1 }, []) :=
    acquire_connected_spec _ hs (by omega) hA3
  refine ⟨hA2, ?_, ?_⟩
  · show ((mgr.acquire hs).1.acquire hs).1._refcount = 2
    rw [hm2]
    show (mgr.acquire hs).1._refcount + 1 = 2
    omega
  · -- the state after the second connect
    have hcon2 : ({ (mgr.acquire hs).1 with
        _refcount := (mgr.acquire hs).1._refcount + 1 } :
          FeetechBusManager).is_connected = true := hA3
    obtain ⟨t', ht'⟩ := disable_torque_ok { v with _connected := true }
      { (mgr.acquire hs).1 with _refcount := (mgr.acquire hs).1._refcount + 1 }
      MotorsArg.noArg 0 hwf
    have hrel := release_pos_spec
      { (mgr.acquire hs).1 with _refcount := (mgr.acquire hs).1._refcount + 1 }
      true (by show 2 ≤ (mgr.acquire hs).1._refcount + 1; omega) hcon2
    have hdis : FeetechBusView.disconnect { v with _connected := true }
        ({ (mgr.acquire hs).1 with
            _refcount := (mgr.acquire hs).1._refcount + 1 } :
          FeetechBusManager) true
        = Except.ok ({ v with _connected := false },
            ({ (mgr.acquire hs).1 with
                _refcount := (mgr.acquire hs).1._refcount + 1 } :
              FeetechBusManager).release true |>.1,
            t' ++ (({ (mgr.acquire hs).1 with
                _refcount := (mgr.acquire hs).1._refcount + 1 } :
              FeetechBusManager).release true).2) := by
      unfold FeetechBusView.disconnect
      rw [if_neg (by simp)]
      rw [if_pos ⟨rfl, hcon2⟩, ht']
    show ∃ v3 mgr3 t3,
      FeetechBusView.disconnect { v with _connected := true }
          ((mgr.acquire hs).1.acquire hs).1 true = Except.ok (v3, mgr3, t3) ∧
      mgr3._refcount = 1 ∧ mgr3.is_connected = true ∧
      v3.disconnect mgr3 true = Except.ok (v3, mgr3, [])
    rw [hm2]
    refine ⟨_, _, _, hdis, ?_, ?_, ?_⟩
    · rw [hrel]
      show (mgr.acquire hs).1._refcount + 1 - 1 = 1
      omega
    · rw [hrel]
      exact hA3
    · exact disconnect_not_attached _ _ true rfl

/-- Witness for C10 on a fresh manager with the `left` view. -/
theorem c10_connect_refcount_leak_witness :
    (exViewLeft.connect exMgrLeft (some true)).2.1._refcount = 1 ∧
    ((exViewLeft.connect exMgrLeft (some true)).1.connect
        (exViewLeft.connect exMgrLeft (some true)).2.1 (some true)).2.1._refcount = 2 ∧
    ∃ v3 mgr3 t3,
      ((exViewLeft.connect exMgrLeft (some true)).1.connect
          (exViewLeft.connect exMgrLeft (some true)).2.1 (some true)).1.disconnect
          ((exViewLeft.connect exMgrLeft (some true)).1.connect
            (exViewLeft.connect exMgrLeft (some true)).2.1 (some true)).2.1 true
        = Except.ok (v3, mgr3, t3) ∧
      mgr3._refcount = 1 ∧ mgr3.is_connected = true ∧
      v3.disconnect mgr3 true = Except.ok (v3, mgr3, []) :=
  c10_connect_refcount_leak exMgrLeft exViewLeft (some true)
    (by decide) (by decide) (by decide)

/-! ### C9: integer motor ids bypass translation -/

/-- C9: when the motor argument of `write` or `setup_motor` is an integer
id, `_translate_motor` forwards it unchanged — no prefix, no id offset and
no membership check against the view's motor subset — so the shared handle
receives the raw id, whatever integer it is. -/
theorem c9_int_motor_passthrough (v : FeetechBusView) (mgr : FeetechBusManager)
    (b : FeetechMotorsBus) (dn : String) (i : Int) (value : Int)
    (norm : Bool) (nr : Nat) (ib ii : Option Int)
    (hb : mgr.bus = some b) :
    v._translate_motor (some (MotorRef.id i)) = Except.ok (some (MotorRef.id i)) ∧
    v.write mgr dn (MotorRef.id i) value norm nr
      = Except.ok [PhysEvent.write dn (some (MotorRef.id i)) value] ∧
    v.setup_motor mgr (MotorRef.id i) ib ii
      = Except.ok [PhysEvent.setupMotor (some (MotorRef.id i)) ib ii] := by
  refine ⟨rfl, ?_, ?_⟩
  · unfold FeetechBusView.write
    rw [hb]
    rfl
  · unfold FeetechBusView.setup_motor
    rw [hb]
    rfl

/-- Witness for C9: writing to raw id 42 (no motor of the view has id 42)
still reaches the handle unchanged. -/
theorem c9_int_motor_passthrough_witness :
    exViewLeft._translate_motor (some (MotorRef.id 42))
      = Except.ok (some (MotorRef.id 42)) ∧
    exViewLeft.write exMgrConn "Goal_Position" (MotorRef.id 42) 7 true 0
      = Except.ok [PhysEvent.write "Goal_Position" (some (MotorRef.id 42)) 7] ∧
    exViewLeft.setup_motor exMgrConn (MotorRef.id 42) none none
      = Except.ok [PhysEvent.setupMotor (some (MotorRef.id 42)) none none] :=
  c9_int_motor_passthrough exViewLeft exMgrConn exBusConn "Goal_Position" 42 7
    true 0 none none (by decide)

/-! ### C5: UninitializedBusError gating -/

theorem translate_motor_not_uninit (v : FeetechBusView) (x : Option MotorRef) :
    v._translate_motor x ≠ Except.error BusError.uninitializedBus := by
  unfold FeetechBusView._translate_motor
  cases x with
  | none => simp
  | some r =>
    cases r with
    | id i => simp
    | name s => cases hg : alookup v.local_to_bus s <;> simp [hg]

theorem translateNames_not_uninit (map : List (String × String))
    (names : List String) :
    translateNames map names ≠ Except.error BusError.uninitializedBus := by
  induction names with
  | nil => simp [translateNames]
  | cons nm rest ih =>
    rw [translateNames]
    cases alookup map nm with
    | none => simp
    | some g =>
      cases hr : translateNames map rest with
      | error e =>
        rw [hr] at ih
        simpa using ih
      | ok gs => simp

theorem translate_motors_not_uninit (v : FeetechBusView) (ms : MotorsArg) :
    v._translate_motors ms ≠ Except.error BusError.uninitializedBus := by
  unfold FeetechBusView._translate_motors
  cases ms with
  | noArg => exact translateNames_not_uninit _ _
  | one m => cases hg : alookup v.local_to_bus m <;> simp [hg]
  | many ls => exact translateNames_not_uninit _ _

theorem translateDictGo_not_uninit {α : Type} (map : List (String × String))
    (acc : List (String × α)) (values : List (String × α)) :
    translateDictGo map acc values ≠ Except.error BusError.uninitializedBus := by
  induction values generalizing acc with
  | nil => simp [translateDictGo]
  | cons p rest ih =>
    rw [translateDictGo]
    cases alookup map p.1 with
    | none => simp
    | some g => exact ih _

/-- C5: each of the seven data-producing operations fails with
UninitializedBusError exactly when the manager's Bus Handle is absent
(whatever the other arguments are), while `enable_torque` and
`disable_torque` silently no-op — returning without touching the bus —
when the handle is absent. -/
theorem c5_uninitialized_gate (v : FeetechBusView) (mgr : FeetechBusManager)
    (dn : String) (motor : MotorRef) (value : Int) (norm : Bool) (nr : Nat)
    (ms : MotorsArg) (vals : List (String × Int))
    (cal : List (String × MotorCalibration)) (ib ii : Option Int)
    (hms : motorsArgOK v ms = true) :
    ((v.write mgr dn motor value norm nr = Except.error BusError.uninitializedBus)
        ↔ mgr.bus = none) ∧
    ((v.sync_write mgr dn vals norm nr = Except.error BusError.uninitializedBus)
        ↔ mgr.bus = none) ∧
    ((v.sync_read mgr dn ms norm nr = Except.error BusError.uninitializedBus)
        ↔ mgr.bus = none) ∧
    ((v.set_half_turn_homings mgr ms = Except.error BusError.uninitializedBus)
        ↔ mgr.bus = none) ∧
    ((v.record_ranges_of_motion mgr ms = Except.error BusError.uninitializedBus)
        ↔ mgr.bus = none) ∧
    ((v.write_calibration mgr cal = Except.error BusError.uninitializedBus)
        ↔ mgr.bus = none) ∧
    ((v.setup_motor mgr motor ib ii = Except.error BusError.uninitializedBus)
        ↔ mgr.bus = none) ∧
    (mgr.bus = none → v.disable_torque mgr ms nr = Except.ok []) ∧
    (mgr.bus = none → v.enable_torque mgr ms nr = Except.ok []) := by
  obtain ⟨subset, hsub⟩ := translate_motors_ok v ms hms
  cases hbus : mgr.bus with
  | none =>
    refine ⟨?_, ?_, ?_, ?_, ?_, ?_, ?_, ?_, ?_⟩ <;>
      simp [FeetechBusView.write, FeetechBusView.sync_write,
        FeetechBusView.sync_read, FeetechBusView.set_half_turn_homings,
        FeetechBusView.record_ranges_of_motion, FeetechBusView.write_calibration,
        FeetechBusView.setup_motor, FeetechBusView.disable_torque,
        FeetechBusView.enable_torque, hbus, hsub]
  | some b =>
    have hfalse : ¬(some b = (none : Option FeetechMotorsBus)) := by simp
    refine ⟨?_, ?_, ?_, ?_, ?_, ?_, ?_, ?_, ?_⟩
    · unfold FeetechBusView.write
      rw [hbus]
      cases htr : v._translate_motor (some motor) with
      | error e =>
        have := translate_motor_not_uninit v (some motor)
        rw [htr] at this
        simp [hbus]
        intro he
        exact this (by rw [he])
      | ok target => simp [hbus]
    · unfold FeetechBusView.sync_write
      rw [hbus]
      cases htr : v._translate_dict vals with
      | error e =>
        have := translateDictGo_not_uninit v.local_to_bus [] vals
        rw [show v._translate_dict vals = translateDictGo v.local_to_bus [] vals
          from rfl] at htr
        rw [htr] at this
        simp [hbus]
        intro he
        exact this (by rw [he])
      | ok payload => simp [hbus]
    · unfold FeetechBusView.sync_read
      rw [hbus, hsub]
      simp [hbus]
    · unfold FeetechBusView.set_half_turn_homings
      rw [hbus, hsub]
      simp [hbus]
    · unfold FeetechBusView.record_ranges_of_motion
      rw [hbus, hsub]
      simp [hbus]
    · unfold FeetechBusView.write_calibration
      rw [hbus]
      cases htr : v._translate_dict cal with
      | error e =>
        have := translateDictGo_not_uninit v.local_to_bus [] cal
        rw [show v._translate_dict cal = translateDictGo v.local_to_bus [] cal
          from rfl] at htr
        rw [htr] at this
        simp [hbus]
        intro he
        exact this (by rw [he])
      | ok translated => simp [hbus]
    · unfold FeetechBusView.setup_motor
      rw [hbus]
      cases htr : v._translate_motor (some motor) with
      | error e =>
        have := translate_motor_not_uninit v (some motor)
        rw [htr] at this
        simp [hbus]
        intro he
        exact this (by rw [he])
      | ok target => simp [hbus]
    · intro he
      exact absurd he hfalse
    · intro he
      exact absurd he hfalse

/-- Witness for C5 on a manager that has never constructed its handle. -/
theorem c5_uninitialized_gate_witness :
    ((exViewLeft.write exMgrLeft "Goal_Position" (MotorRef.name "shoulder") 5 true 0
        = Except.error BusError.uninitializedBus) ↔ exMgrLeft.bus = none) ∧
    ((exViewLeft.sync_write exMgrLeft "Goal_Position" [("shoulder", 5)] true 0
        = Except.error BusError.uninitializedBus) ↔ exMgrLeft.bus = none) ∧
    ((exViewLeft.sync_read exMgrLeft "Present_Position" MotorsArg.noArg true 0
        = Except.error BusError.uninitializedBus) ↔ exMgrLeft.bus = none) ∧
    ((exViewLeft.set_half_turn_homings exMgrLeft MotorsArg.noArg
        = Except.error BusError.uninitializedBus) ↔ exMgrLeft.bus = none) ∧
    ((exViewLeft.record_ranges_of_motion exMgrLeft MotorsArg.noArg
        = Except.error BusError.uninitializedBus) ↔ exMgrLeft.bus = none) ∧
    ((exViewLeft.write_calibration exMgrLeft [("shoulder", ⟨3⟩)]
        = Except.error BusError.uninitializedBus) ↔ exMgrLeft.bus = none) ∧
    ((exViewLeft.setup_motor exMgrLeft (MotorRef.name "shoulder") none none
        = Except.error BusError.uninitializedBus) ↔ exMgrLeft.bus = none) ∧
    (exMgrLeft.bus = none →
      exViewLeft.disable_torque exMgrLeft MotorsArg.noArg 0 = Except.ok []) ∧
    (exMgrLeft.bus = none →
      exViewLeft.enable_torque exMgrLeft MotorsArg.noArg 0 = Except.ok []) :=
  c5_uninitialized_gate exViewLeft exMgrLeft "Goal_Position"
    (MotorRef.name "shoulder") 5 true 0 MotorsArg.noArg [("shoulder", 5)]
    [("shoulder", ⟨3⟩)] none none (by decide)

/-- Witness for the amended C1 at the concrete failing registration. -/
theorem c1_register_collision_partial_commit_witness :
    exMgrLeft.register_component "bad"
        ([("elbow", exMotor 1)] ++ ("shoulder", exMotor 2) :: []) "left_" 6 none =
      ({ exMgrLeft with
          _motor_defs := exMgrLeft._motor_defs ++
            [("elbow", exMotor 1)].map (fun p => ("left_" ++ p.1, offsetMotor 6 p.2)),
          _calibration := [("elbow", exMotor 1)].foldl
            (fun c p => calStep none "left_" c p.1) exMgrLeft._calibration },
       Except.error (BusError.nameCollision ("left_" ++ "shoulder"))) :=
  c1_register_collision_partial_commit exMgrLeft "bad" [("elbow", exMotor 1)] "shoulder"
    (exMotor 2) [] "left_" 6 none (by decide) (by decide) (by decide) (by decide)

/-! ### Reverse-map lemmas for `_map_dict_to_local` -/

theorem lookup_inj_of_snd_nodup {m : List (String × String)}
    (hm2 : (m.map Prod.snd).Nodup) {l1 l2 g : String}
    (h1 : alookup m l1 = some g) (h2 : alookup m l2 = some g) : l1 = l2 := by
  induction m with
  | nil => simp [alookup] at h1
  | cons a rest ih =>
    simp only [List.map_cons, List.nodup_cons] at hm2
    by_cases ha1 : a.1 = l1 <;> by_cases ha2 : a.1 = l2
    · rw [← ha1, ha2]
    · simp only [alookup_cons, ha1, if_true, Option.some.injEq] at h1
      simp only [alookup_cons, ha2, if_false] at h2
      have hmem : g ∈ rest.map Prod.snd :=
        List.mem_map.mpr ⟨(l2, g), mem_of_alookup h2, rfl⟩
      exact absurd hmem (h1 ▸ hm2.1)
    · simp only [alookup_cons, ha2, if_true, Option.some.injEq] at h2
      simp only [alookup_cons, ha1, if_false] at h1
      have hmem : g ∈ rest.map Prod.snd :=
        List.mem_map.mpr ⟨(l1, g), mem_of_alookup h1, rfl⟩
      exact absurd hmem (h2 ▸ hm2.1)
    · simp only [alookup_cons, ha1, ha2, if_false] at h1 h2
      exact ih hm2.2 h1 h2

theorem dkeys_swap (m : List (String × String)) :
    dkeys (m.map (fun p => (p.2, p.1))) = m.map Prod.snd := by
  simp [dkeys, List.map_map]

theorem reverseMap_go (l : List (String × String)) (acc : List (String × String))
    (hfresh : ∀ p ∈ l, alookup acc p.2 = none)
    (hnd : (l.map Prod.snd).Nodup) :
    l.foldl (fun a p => dinsert a p.2 p.1) acc
      = acc ++ l.map (fun p => (p.2, p.1)) := by
  induction l generalizing acc with
  | nil => simp
  | cons p rest ih =>
    simp only [List.map_cons, List.nodup_cons] at hnd
    rw [List.foldl_cons, dinsert_of_fresh (hfresh p (List.mem_cons_self _ _))]
    rw [ih (acc ++ [(p.2, p.1)]) ?hf hnd.2]
    · simp
    case hf =>
      intro q hq
      rw [alookup_append, hfresh q (List.mem_cons_of_mem _ hq)]
      have hne : p.2 ≠ q.2 := by
        intro he
        exact hnd.1 (he ▸ List.mem_map.mpr ⟨q, hq, rfl⟩)
      simp [hne]

theorem reverseMap_eq_swap {m : List (String × String)}
    (hm2 : (m.map Prod.snd).Nodup) :
    reverseMap m = m.map (fun p => (p.2, p.1)) := by
  unfold reverseMap
  rw [reverseMap_go m [] (by intro p _; simp) hm2]
  simp

theorem rev_of_lookup {m : List (String × String)}
    (hm2 : (m.map Prod.snd).Nodup) {l g : String}
    (h : alookup m l = some g) : alookup (reverseMap m) g = some l := by
  rw [reverseMap_eq_swap hm2]
  apply alookup_of_mem_nodup
  · rw [dkeys_swap]
    exact hm2
  · exact List.mem_map.mpr ⟨(l, g), mem_of_alookup h, rfl⟩

theorem lookup_of_rev {m : List (String × String)}
    (hm1 : (dkeys m).Nodup) (hm2 : (m.map Prod.snd).Nodup) {l g : String}
    (h : alookup (reverseMap m) g = some l) : alookup m l = some g := by
  rw [reverseMap_eq_swap hm2] at h
  obtain ⟨p, hp, heq⟩ := List.mem_map.mp (mem_of_alookup h)
  obtain ⟨h1, h2⟩ := Prod.mk.injEq .. ▸ heq
  apply alookup_of_mem_nodup hm1
  have : p = (l, g) := by
    cases p
    simp only [Prod.mk.injEq] at h1 h2 ⊢
    exact ⟨h2, h1⟩
  exact this ▸ hp

theorem rev_none_of_not_mem {m : List (String × String)}
    (hm2 : (m.map Prod.snd).Nodup) {g : String}
    (h : g ∉ m.map Prod.snd) : alookup (reverseMap m) g = none := by
  rw [reverseMap_eq_swap hm2]
  rw [alookup_eq_none_iff, dkeys_swap]
  exact h

theorem mem_dkeys_of_alookup {κ α : Type} [DecidableEq κ]
    {d : List (κ × α)} {k : κ} {v : α}
    (h : alookup d k = some v) : k ∈ dkeys d := by
  by_contra hk
  rw [← alookup_eq_none_iff] at hk
  rw [hk] at h
  exact Option.noConfusion h

theorem mapLocalGo_eq_filterMap {m : List (String × String)}
    (hm1 : (dkeys m).Nodup) (hm2 : (m.map Prod.snd).Nodup) {α : Type}
    (d : List (String × α)) (acc : List (String × α))
    (hd : (dkeys d).Nodup)
    (hfresh : ∀ p ∈ d, ∀ l, alookup (reverseMap m) p.1 = some l →
      alookup acc l = none) :
    mapLocalGo (reverseMap m) acc d
      = acc ++ d.filterMap
          (fun p => (alookup (reverseMap m) p.1).map (fun l => (l, p.2))) := by
  induction d generalizing acc with
  | nil => simp [mapLocalGo]
  | cons p rest ih =>
    simp only [dkeys, List.map_cons, List.nodup_cons] at hd
    rw [mapLocalGo]
    cases hr : alookup (reverseMap m) p.1 with
    | none =>
      rw [ih acc hd.2
        (fun q hq l hl => hfresh q (List.mem_cons_of_mem _ hq) l hl)]
      simp [List.filterMap_cons, hr]
    | some l =>
      show mapLocalGo (reverseMap m) (dinsert acc l p.2) rest = _
      rw [dinsert_of_fresh (hfresh p (List.mem_cons_self _ _) l hr)]
      rw [ih (acc ++ [(l, p.2)]) hd.2 ?hf]
      · simp [List.filterMap_cons, hr]
      case hf =>
        intro q hq l' hql'
        rw [alookup_append, hfresh q (List.mem_cons_of_mem _ hq) l' hql']
        have hq1 : alookup m l' = some q.1 := lookup_of_rev hm1 hm2 hql'
        have hp1 : alookup m l = some p.1 := lookup_of_rev hm1 hm2 hr
        have hne : l ≠ l' := by
          intro he
          subst he
          have heq : p.1 = q.1 := by
            have := hp1.symm.trans hq1
            simpa using this
          exact hd.1 (heq ▸ List.mem_map.mpr ⟨q, hq, rfl⟩)
        simp [hne]

theorem alookup_filterMap_rev {m : List (String × String)}
    (hm1 : (dkeys m).Nodup) (hm2 : (m.map Prod.snd).Nodup) {α : Type}
    (d : List (String × α)) (l : String) :
    alookup (d.filterMap
        (fun p => (alookup (reverseMap m) p.1).map (fun l' => (l', p.2)))) l
      = (alookup m l).bind (fun g => alookup d g) := by
  induction d with
  | nil => cases hml : alookup m l <;> simp [hml]
  | cons p rest ih =>
    rw [List.filterMap_cons]
    cases hr : alookup (reverseMap m) p.1 with
    | none =>
      cases hml : alookup m l with
      | none =>
        rw [hml] at ih
        simpa [hml] using ih
      | some g =>
        have hgp : p.1 ≠ g := by
          intro he
          rw [he] at hr
          rw [rev_of_lookup hm2 hml] at hr
          exact Option.noConfusion hr
        rw [hml] at ih
        simpa [hml, hgp] using ih
    | some l' =>
      by_cases he : l' = l
      · subst he
        have hml : alookup m l' = some p.1 := lookup_of_rev hm1 hm2 hr
        simp [hml]
      · cases hml : alookup m l with
        | none =>
          rw [hml] at ih
          simpa [he, hml] using ih
        | some g =>
          have hgp : p.1 ≠ g := by
            intro heq
            rw [heq] at hr
            rw [rev_of_lookup hm2 hml] at hr
            have hll : l = l' := by simpa using hr
            exact he hll.symm
          rw [hml] at ih
          simpa [he, hml, hgp] using ih

/-! ### C6: outputs are rewritten to local names, foreign keys dropped -/

/-- C6: `_map_dict_to_local` (applied by `sync_read`,
`set_half_turn_homings` and `record_ranges_of_motion` to everything the
handle returns) rewrites every bus-global key in the view's map back to its
local name and silently drops every other key: looking up a local name in
the output gives exactly the input's value at that name's bus-global image,
and every output key is one of the view's local motor names. -/
theorem c6_output_local_only (v : FeetechBusView) {α : Type}
    (d : List (String × α))
    (hinj : mapInjective v) (hd : (dkeys d).Nodup)
    (hkeys : dkeys v.local_to_bus = dkeys v.local_motors) :
    (∀ l, alookup (v._map_dict_to_local d) l
        = (alookup v.local_to_bus l).bind (fun g => alookup d g)) ∧
    (∀ p ∈ v._map_dict_to_local d, p.1 ∈ dkeys v.local_motors) := by
  obtain ⟨hm1, hm2⟩ := hinj
  have hform : v._map_dict_to_local d
      = d.filterMap (fun p => (alookup (reverseMap v.local_to_bus) p.1).map
          (fun l => (l, p.2))) := by
    unfold FeetechBusView._map_dict_to_local
    rw [mapLocalGo_eq_filterMap hm1 hm2 d [] hd (by intro p _ l _; simp)]
    simp
  refine ⟨fun l => by rw [hform]; exact alookup_filterMap_rev hm1 hm2 d l, ?_⟩
  intro p hp
  rw [hform] at hp
  obtain ⟨q, hq, heq⟩ := List.mem_filterMap.mp hp
  cases hrq : alookup (reverseMap v.local_to_bus) q.1 with
  | none => rw [hrq] at heq; exact Option.noConfusion heq
  | some l =>
    rw [hrq] at heq
    have hml := lookup_of_rev hm1 hm2 hrq
    have hpl : p.1 = l := by
      have : (l, q.2) = p := by simpa using heq
      rw [← this]
    rw [hpl, ← hkeys]
    exact mem_dkeys_of_alookup hml

/-- Witness for C6: a handle result containing a foreign motor
(`right_wrist`) is dropped while `left_shoulder` is rewritten to
`shoulder`. -/
theorem c6_output_local_only_witness :
    alookup (exViewLeft._map_dict_to_local
        [("left_shoulder", (10 : Int)), ("right_wrist", 20)]) "shoulder"
      = (alookup exViewLeft.local_to_bus "shoulder").bind
          (fun g => alookup [("left_shoulder", (10 : Int)), ("right_wrist", 20)] g) :=
  (c6_output_local_only exViewLeft
    [("left_shoulder", (10 : Int)), ("right_wrist", 20)]
    (by constructor <;> decide) (by decide) (by decide)).1 "shoulder"

/-! ### C7: is_calibrated checks the handle's calibration table -/

theorem calibratedGo_all (map : List (String × String))
    (cal : List (String × MotorCalibration)) (motors : List (String × Motor))
    (h : ∀ p ∈ motors, (alookup map p.1).isSome = true) :
    calibratedGo map cal motors
      = Except.ok (motors.all (fun p =>
          match alookup map p.1 with
          | some g => (alookup cal g).isSome
          | none => false)) := by
  induction motors with
  | nil => rfl
  | cons p rest ih =>
    obtain ⟨g, hg⟩ := Option.isSome_iff_exists.mp (h p (List.mem_cons_self _ _))
    rw [calibratedGo, hg]
    show (if (alookup cal g).isSome = true then calibratedGo map cal rest
          else Except.ok false) = _
    by_cases hca : (alookup cal g).isSome = true
    · rw [if_pos hca, ih (fun q hq => h q (List.mem_cons_of_mem _ hq))]
      simp [List.all_cons, hg, hca]
    · rw [if_neg hca]
      simp only [Bool.not_eq_true] at hca
      simp [List.all_cons, hg, hca]

/-- C7 counterexample: after registering `left` without initial calibration,
acquiring, and a `write_calibration` through the view, the state is
reachable, the bus is connected, `is_calibrated` is true — yet
`left_shoulder` is not a key of the manager's Global Calibration Table
(`_calibration` is empty), because `is_calibrated` consults the handle's
calibration table instead. -/
theorem c7_counterexample :
    exViewLeft.write_calibration exMgrConn [("shoulder", MotorCalibration.mk 42)]
      = Except.ok (exMgrCal, [PhysEvent.writeCalibration ["left_shoulder"]]) ∧
    exMgrCal.is_connected = true ∧
    exViewLeft.is_calibrated exMgrCal = Except.ok true ∧
    exMgrCal._calibration = [] ∧
    allCalibratedIn exViewLeft exMgrCal._calibration = false := by
  decide

/-- C7 (amended): `is_calibrated` is false whenever the handle is absent or
disconnected, and when connected it is true exactly when every local
motor's bus-global name is a key of the Bus Handle's calibration table
(seeded from the Global Calibration Table at handle construction, but
updated independently of it by `write_calibration`). -/
theorem c7_is_calibrated_handle_table (v : FeetechBusView)
    (mgr : FeetechBusManager) (hwf : viewWF v = true) :
    (mgr.bus = none → v.is_calibrated mgr = Except.ok false) ∧
    (∀ b, mgr.bus = some b → b.is_connected = false →
      v.is_calibrated mgr = Except.ok false) ∧
    (∀ b, mgr.bus = some b → b.is_connected = true →
      (v.is_calibrated mgr = Except.ok true
        ↔ allCalibratedIn v b.calibration = true)) := by
  have hwf' : ∀ p ∈ v.local_motors, (alookup v.local_to_bus p.1).isSome = true := by
    have h := hwf
    unfold viewWF at h
    rw [List.all_eq_true] at h
    exact h
  refine ⟨?_, ?_, ?_⟩
  · intro h
    unfold FeetechBusView.is_calibrated
    rw [h]
  · intro b hb hbc
    unfold FeetechBusView.is_calibrated
    rw [hb]
    simp [hbc]
  · intro b hb hbc
    unfold FeetechBusView.is_calibrated
    rw [hb]
    show (if b.is_connected = false then Except.ok false
          else calibratedGo v.local_to_bus b.calibration v.local_motors)
            = Except.ok true
        ↔ allCalibratedIn v b.calibration = true
    rw [if_neg (by simp [hbc])]
    rw [calibratedGo_all _ _ _ hwf']
    unfold allCalibratedIn
    simp

/-- Witness for the amended C7: false with no handle; true after the
calibration write, matching the handle-table membership test. -/
theorem c7_is_calibrated_handle_table_witness :
    exViewLeft.is_calibrated exMgrLeft = Except.ok false ∧
    (exViewLeft.is_calibrated exMgrCal = Except.ok true
      ↔ allCalibratedIn exViewLeft exBusCal.calibration = true) :=
  ⟨(c7_is_calibrated_handle_table exViewLeft exMgrLeft (by decide)).1 (by decide),
   (c7_is_calibrated_handle_table exViewLeft exMgrCal (by decide)).2.2 exBusCal
     (by decide) (by decide)⟩

/-! ### C4: batch write / batch read round trip -/

theorem busImage_mem {v : FeetechBusView} {α : Type}
    {values : List (String × α)} {q : String × α}
    (hq : q ∈ busImage v values) :
    ∃ p ∈ values, alookup v.local_to_bus p.1 = some q.1 ∧ q.2 = p.2 := by
  obtain ⟨p, hp, heq⟩ := List.mem_filterMap.mp hq
  cases hl : alookup v.local_to_bus p.1 with
  | none => rw [hl] at heq; exact Option.noConfusion heq
  | some g =>
    rw [hl] at heq
    have h2 : (g, p.2) = q := by simpa using heq
    refine ⟨p, hp, ?_, ?_⟩
    · rw [← h2]
      exact hl
    · rw [← h2]

theorem busImage_keys_nodup {v : FeetechBusView} {α : Type}
    (hm2 : (v.local_to_bus.map Prod.snd).Nodup)
    {values : List (String × α)} (hvk : (dkeys values).Nodup) :
    (dkeys (busImage v values)).Nodup := by
  induction values with
  | nil => simp [busImage, dkeys]
  | cons p rest ih =>
    simp only [dkeys, List.map_cons, List.nodup_cons] at hvk
    cases hl : alookup v.local_to_bus p.1 with
    | none =>
      show (dkeys (busImage v (p :: rest))).Nodup
      simp only [busImage, List.filterMap_cons, hl, Option.map_none']
      exact ih hvk.2
    | some g =>
      show (dkeys (busImage v (p :: rest))).Nodup
      simp only [busImage, List.filterMap_cons, hl, Option.map_some']
      simp only [dkeys, List.map_cons, List.nodup_cons]
      refine ⟨?_, ih hvk.2⟩
      intro hmem
      obtain ⟨q, hq, hqg⟩ := List.mem_map.mp hmem
      obtain ⟨r, hr, hrl, _⟩ := busImage_mem hq
      rw [hqg] at hrl
      have : p.1 = r.1 := lookup_inj_of_snd_nodup hm2 hl hrl
      exact hvk.1 (this ▸ List.mem_map.mpr ⟨r, hr, rfl⟩)

theorem busImage_keys_eq (v : FeetechBusView) {α : Type}
    (values : List (String × α)) :
    dkeys (busImage v values)
      = (dkeys values).filterMap (fun l => alookup v.local_to_bus l) := by
  induction values with
  | nil => rfl
  | cons p rest ih =>
    cases hl : alookup v.local_to_bus p.1 with
    | none =>
      simp only [busImage, dkeys, List.filterMap_cons, List.map_cons, hl,
        Option.map_none'] at ih ⊢
      exact ih
    | some g =>
      simp only [busImage, dkeys, List.filterMap_cons, List.map_cons, hl,
        Option.map_some'] at ih ⊢
      rw [ih]

theorem translateDictGo_eq (v : FeetechBusView) {α : Type}
    (values : List (String × α)) (acc : List (String × α))
    (hvin : ∀ p ∈ values, (alookup v.local_to_bus p.1).isSome = true)
    (hbk : (dkeys (busImage v values)).Nodup)
    (hfresh : ∀ p ∈ values, ∀ g, alookup v.local_to_bus p.1 = some g →
      alookup acc g = none) :
    translateDictGo v.local_to_bus acc values
      = Except.ok (acc ++ busImage v values) := by
  induction values generalizing acc with
  | nil => simp [translateDictGo, busImage]
  | cons p rest ih =>
    obtain ⟨g, hg⟩ :=
      Option.isSome_iff_exists.mp (hvin p (List.mem_cons_self _ _))
    rw [translateDictGo, hg]
    show translateDictGo v.local_to_bus (dinsert acc g p.2) rest = _
    rw [dinsert_of_fresh (hfresh p (List.mem_cons_self _ _) g hg)]
    simp only [busImage, List.filterMap_cons, hg, Option.map_some'] at hbk ⊢
    simp only [dkeys, List.map_cons, List.nodup_cons] at hbk
    rw [ih (acc ++ [(g, p.2)]) (fun q hq => hvin q (List.mem_cons_of_mem _ hq))
        hbk.2 ?hf]
    · simp [busImage]
    case hf =>
      intro q hq g' hg'
      rw [alookup_append, hfresh q (List.mem_cons_of_mem _ hq) g' hg']
      have hgm : g' ∈ dkeys (busImage v rest) := by
        rw [busImage_keys_eq]
        exact List.mem_filterMap.mpr ⟨q.1, List.mem_map.mpr ⟨q, hq, rfl⟩, hg'⟩
      have hne : g ≠ g' := fun he => hbk.1 (he ▸ hgm)
      simp [hne]

theorem store_fold_preserve (dn : String) (ps : List (String × Int))
    (s : List ((String × String) × Int)) (k : String × String)
    (h : ∀ p ∈ ps, ((dn, p.1) : String × String) ≠ k) :
    alookup (ps.foldl (fun acc p => dinsert acc (dn, p.1) p.2) s) k
      = alookup s k := by
  induction ps generalizing s with
  | nil => rfl
  | cons p rest ih =>
    rw [List.foldl_cons, ih _ (fun q hq => h q (List.mem_cons_of_mem _ hq))]
    exact alookup_dinsert_ne (Ne.symm (h p (List.mem_cons_self _ _))) s p.2

theorem store_fold_lookup (dn : String) (ps : List (String × Int))
    (s : List ((String × String) × Int)) {g : String} {x : Int}
    (hnd : (dkeys ps).Nodup) (hmem : (g, x) ∈ ps) :
    alookup (ps.foldl (fun acc p => dinsert acc (dn, p.1) p.2) s) (dn, g)
      = some x := by
  induction ps generalizing s with
  | nil => simp at hmem
  | cons p rest ih =>
    simp only [dkeys, List.map_cons, List.nodup_cons] at hnd
    rcases List.mem_cons.mp hmem with hh | hh
    · subst hh
      rw [List.foldl_cons]
      rw [store_fold_preserve dn rest _ _ ?hne]
      · exact alookup_dinsert_self s (dn, g) x
      case hne =>
        intro q hq he
        have : q.1 = g := by
          have := congrArg Prod.snd he
          simpa using this
        exact hnd.1 (this ▸ List.mem_map.mpr ⟨q, hq, rfl⟩)
    · rw [List.foldl_cons]
      exact ih (dinsert s (dn, p.1) p.2) hnd.2 hh

theorem echo_filterMap (store : List ((String × String) × Int)) (dn : String)
    (payload : List (String × Int))
    (h : ∀ p ∈ payload, alookup store (dn, p.1) = some p.2) :
    (dkeys payload).filterMap
        (fun g => (alookup store (dn, g)).map (fun x => (g, x))) = payload := by
  induction payload with
  | nil => rfl
  | cons p rest ih =>
    have ih' := ih (fun q hq => h q (List.mem_cons_of_mem _ hq))
    simp only [dkeys] at ih'
    simp only [dkeys, List.map_cons, List.filterMap_cons,
      h p (List.mem_cons_self _ _), Option.map_some']
    rw [ih']

theorem filterMapRev_busImage (v : FeetechBusView)
    (hm2 : (v.local_to_bus.map Prod.snd).Nodup) {α : Type}
    (values : List (String × α))
    (hvin : ∀ p ∈ values, (alookup v.local_to_bus p.1).isSome = true) :
    (busImage v values).filterMap
        (fun p => (alookup (reverseMap v.local_to_bus) p.1).map
          (fun l => (l, p.2))) = values := by
  induction values with
  | nil => rfl
  | cons p rest ih =>
    obtain ⟨g, hg⟩ :=
      Option.isSome_iff_exists.mp (hvin p (List.mem_cons_self _ _))
    have ih' := ih (fun q hq => hvin q (List.mem_cons_of_mem _ hq))
    simp only [busImage, List.filterMap_cons, hg, Option.map_some',
      rev_of_lookup hm2 hg]
    exact congrArg (fun l => p :: l) ih'

theorem sync_write_ok (v : FeetechBusView) (mgr : FeetechBusManager)
    (b : FeetechMotorsBus) (dn : String) (values payload : List (String × Int))
    (norm : Bool) (nr : Nat) (hb : mgr.bus = some b)
    (htd : v._translate_dict values = Except.ok payload) :
    v.sync_write mgr dn values norm nr = Except.ok
      ({ mgr with bus := some { b with store := storeAfterWrite dn payload b.store } },
       [PhysEvent.syncWrite dn (dkeys payload)]) := by
  unfold FeetechBusView.sync_write
  rw [hb, htd]

theorem sync_read_ok (v : FeetechBusView) (mgr : FeetechBusManager)
    (b : FeetechMotorsBus) (dn : String) (ms : MotorsArg)
    (subset : List String) (norm : Bool) (nr : Nat) (hb : mgr.bus = some b)
    (hsub : v._translate_motors ms = Except.ok subset) :
    v.sync_read mgr dn ms norm nr = Except.ok
      (v._map_dict_to_local (subset.filterMap
        (fun g => (alookup b.store (dn, g)).map (fun x => (g, x)))),
       [PhysEvent.syncRead dn subset]) := by
  unfold FeetechBusView.sync_read
  rw [hb, hsub]

/-- C4: for a view with an injective local-to-global map and a value
dictionary keyed by the view's motor names, a `sync_write` followed by a
`sync_read` of the same local names — against the handle, whose register
store echoes back exactly what was stored — returns the original
local-keyed dictionary unchanged, and the handle observes only bus-global
keys in both calls. -/
theorem c4_sync_roundtrip (v : FeetechBusView) (mgr : FeetechBusManager)
    (b : FeetechMotorsBus) (dn : String) (values : List (String × Int))
    (norm1 norm2 : Bool) (nr1 nr2 : Nat)
    (hb : mgr.bus = some b)
    (hinj : mapInjective v)
    (hvk : (dkeys values).Nodup)
    (hvin : ∀ p ∈ values, (alookup v.local_to_bus p.1).isSome = true) :
    ∃ mgr2,
      v.sync_write mgr dn values norm1 nr1
        = Except.ok (mgr2, [PhysEvent.syncWrite dn (dkeys (busImage v values))]) ∧
      v.sync_read mgr2 dn (MotorsArg.many (dkeys values)) norm2 nr2
        = Except.ok (values, [PhysEvent.syncRead dn (dkeys (busImage v values))]) ∧
      (∀ g ∈ dkeys (busImage v values), g ∈ v.local_to_bus.map Prod.snd) := by
  obtain ⟨hm1, hm2⟩ := hinj
  have hbk : (dkeys (busImage v values)).Nodup := busImage_keys_nodup hm2 hvk
  have htd : v._translate_dict values = Except.ok (busImage v values) := by
    unfold FeetechBusView._translate_dict
    exact translateDictGo_eq v values [] hvin hbk (by intro p _ g _; simp)
  have hsub : v._translate_motors (MotorsArg.many (dkeys values))
      = Except.ok (dkeys (busImage v values)) := by
    show translateNames v.local_to_bus (dkeys values) = _
    rw [translateNames_ok v.local_to_bus (dkeys values) ?hmem]
    · rw [busImage_keys_eq]
    case hmem =>
      intro nm hnm
      obtain ⟨p, hp, rfl⟩ := List.mem_map.mp hnm
      exact hvin p hp
  have hlocal : v._map_dict_to_local (busImage v values) = values := by
    unfold FeetechBusView._map_dict_to_local
    rw [mapLocalGo_eq_filterMap hm1 hm2 (busImage v values) [] hbk
      (by intro p _ l _; simp)]
    rw [List.nil_append]
    exact filterMapRev_busImage v hm2 values hvin
  have hecho : ∀ p ∈ busImage v values,
      alookup (storeAfterWrite dn (busImage v values) b.store) (dn, p.1)
        = some p.2 := by
    intro p hp
    exact store_fold_lookup dn (busImage v values) b.store hbk
      (by cases p; exact hp)
  refine ⟨_, sync_write_ok v mgr b dn values (busImage v values) norm1 nr1
      hb htd, ?_, ?_⟩
  · rw [sync_read_ok v _
      { b with store := storeAfterWrite dn (busImage v values) b.store }
      dn (MotorsArg.many (dkeys values)) (dkeys (busImage v values)) norm2 nr2
      rfl hsub]
    rw [show ({ b with store := storeAfterWrite dn (busImage v values) b.store } :
        FeetechMotorsBus).store = storeAfterWrite dn (busImage v values) b.store
      from rfl]
    rw [echo_filterMap (storeAfterWrite dn (busImage v values) b.store) dn
      (busImage v values) hecho]
    rw [hlocal]
  · intro g hg
    obtain ⟨q, hq, hqg⟩ := List.mem_map.mp hg
    obtain ⟨r, _, hrl, _⟩ := busImage_mem hq
    rw [hqg] at hrl
    exact List.mem_map.mpr ⟨(r.1, g), mem_of_alookup hrl, rfl⟩

/-- Witness for C4: a two-motor round trip through the connected shared
handle, with the store observing only `right_`-prefixed keys. -/
theorem c4_sync_roundtrip_witness :
    ∃ mgr2,
      exViewRight.sync_write exMgrConn "Goal_Position"
          [("shoulder", 11), ("elbow", 22)] true 0
        = Except.ok (mgr2, [PhysEvent.syncWrite "Goal_Position"
            (dkeys (busImage exViewRight [("shoulder", 11), ("elbow", 22)]))]) ∧
      exViewRight.sync_read mgr2 "Goal_Position"
          (MotorsArg.many (dkeys [("shoulder", (11 : Int)), ("elbow", 22)])) true 0
        = Except.ok ([("shoulder", 11), ("elbow", 22)],
            [PhysEvent.syncRead "Goal_Position"
              (dkeys (busImage exViewRight [("shoulder", 11), ("elbow", 22)]))]) ∧
      (∀ g ∈ dkeys (busImage exViewRight [("shoulder", (11 : Int)), ("elbow", 22)]),
        g ∈ exViewRight.local_to_bus.map Prod.snd) :=
  c4_sync_roundtrip exViewRight exMgrConn exBusConn "Goal_Position"
    [("shoulder", 11), ("elbow", 22)] true true 0 0
    (by decide) (by constructor <;> decide) (by decide) (by decide)

end SharedBus
